import Mathlib

/-!
# json-diff-action: file-set resolution and key-diff engine

A shallow embedding of `src/Action.js` (class `Action`).  JavaScript values
that the class touches are modelled explicitly:

* a plain object is the list of its own enumerable string-keyed properties in
  `Object.keys` order (array-index keys first, ascending; then the other keys in
  creation order);
* the Node modules `fs` and `path`, `JSON.parse` and `RegExp` are fields of a
  `Runtime` record, so every theorem holds for every behaviour of the platform;
* a thrown exception is the `error` branch of `Except ActionError`.
-/

set_option autoImplicit false

namespace JsonDiff

/-! ## Errors -/

/-- The error classes of `errors.js`, each carrying its message, plus the
exceptions raised by the platform itself (`fs`, `JSON.parse`, `RegExp`,
`TypeError`). -/
inductive ActionError where
  | NotEnoughFiles (message : String)
  | NotFoundPath (message : String)
  | EmptySearchPath (message : String)
  | InvalidSearchPath (message : String)
  | RuntimeError (message : String)
  deriving DecidableEq, Repr

/-- The `message` property of a thrown error. -/
def ActionError.message : ActionError → String
  | .NotEnoughFiles m => m
  | .NotFoundPath m => m
  | .EmptySearchPath m => m
  | .InvalidSearchPath m => m
  | .RuntimeError m => m

/-- Lift a platform exception (given by its message) into `ActionError`. -/
def liftRuntime {α : Type} : Except String α → Except ActionError α
  | .ok a => .ok a
  | .error m => .error (.RuntimeError m)

/-! ## Plain JavaScript objects -/

/-- Own enumerable string-keyed properties of an ordinary object, listed in
`Object.keys` order. -/
abbrev JsObject (α : Type) := List (String × α)

/-- Numeric value of a decimal digit string (most significant digit first). -/
def decimalValue (cs : List Char) : Nat :=
  cs.foldl (fun acc c => 10 * acc + (c.toNat - 48)) 0

/-- The array index denoted by a property key, if the key is a canonical
numeric string below `2^32 - 1` (such keys are enumerated first, in ascending
numeric order). -/
def arrayIndex? (key : String) : Option Nat :=
  match key.data with
  | [] => none
  | c :: cs =>
    if (c :: cs).all Char.isDigit && (cs.isEmpty || c != '0') then
      if decimalValue (c :: cs) < 4294967295 then some (decimalValue (c :: cs)) else none
    else none

namespace JsObject

variable {α : Type}

/-- `Object.keys(o)`. -/
def keys (o : JsObject α) : List String := o.map Prod.fst

/-- `o[key]` for an own property; `none` stands for `undefined`. -/
def get? (o : JsObject α) (key : String) : Option α :=
  match o with
  | [] => none
  | (k, v) :: rest => if key = k then some v else get? rest key

/-- Whether `key` is an own property of `o`. -/
def hasOwn (o : JsObject α) (key : String) : Bool := o.any (fun p => p.1 == key)

/-- Overwrite the value of an existing own property; its position is kept. -/
def replace (o : JsObject α) (key : String) (value : α) : JsObject α :=
  o.map (fun p => if p.1 = key then (key, value) else p)

/-- Create a new array-index property `key` (with index `n`) at its place in the
ascending run of array-index keys that starts the enumeration. -/
def insertIndex (o : JsObject α) (n : Nat) (key : String) (value : α) : JsObject α :=
  match o with
  | [] => [(key, value)]
  | (k, v) :: rest =>
    match arrayIndex? k with
    | some m => if m < n then (k, v) :: insertIndex rest n key value
                else (key, value) :: (k, v) :: rest
    | none => (key, value) :: (k, v) :: rest

/-- `CreateDataProperty(o, key, value)`: what `JSON.parse` does for each member
and what an assignment does for every key other than `__proto__`. -/
def defineProperty (o : JsObject α) (key : String) (value : α) : JsObject α :=
  if hasOwn o key then replace o key value
  else
    match arrayIndex? key with
    | some n => insertIndex o n key value
    | none => o ++ [(key, value)]

/-- The assignment `o[key] = value` on an object that inherits from
`Object.prototype`, for a `value` that is an array: the key `__proto__` hits
the inherited setter, which replaces the prototype and creates no own property. -/
def assign (o : JsObject α) (key : String) (value : α) : JsObject α :=
  if key = "__proto__" then o else defineProperty o key value

end JsObject

/-! ## Parsed JSON documents -/

/-- The value produced by `JSON.parse`; an object carries its members in
document order (duplicates included), a number carries nothing because only
keys are ever inspected. -/
inductive JsValue where
  | null
  | bool (b : Bool)
  | number
  | string (s : String)
  | array (items : List JsValue)
  | object (members : List (String × JsValue))

/-- Number of UTF-16 code units of a string (`s.length` in JavaScript). -/
def utf16Length (s : String) : Nat :=
  s.data.foldl (fun n c => n + (if c.toNat < 65536 then 1 else 2)) 0

/-- The keys `"0"`, ..., `"n-1"`. -/
def indexKeys (n : Nat) : List String := (List.range n).map (fun i => toString i)

/-- `Object.keys(value)` for a parsed document: `null` throws, a boolean or a
number has no own keys, a string or an array has its indices, an object has the
keys of the properties created member by member. -/
def objectKeys : JsValue → Except ActionError (List String)
  | .null => .error (.RuntimeError "Cannot convert undefined or null to object")
  | .bool _ => .ok []
  | .number => .ok []
  | .string s => .ok (indexKeys (utf16Length s))
  | .array items => .ok (indexKeys items.length)
  | .object members =>
    .ok (JsObject.keys (members.foldl (fun o m => JsObject.defineProperty o m.1 m.2) []))

/-! ## The platform -/

/-- An entry returned by `fs.readdirSync(dir, { withFileTypes: true })`. -/
structure Dirent where
  name : String
  isDirectory : Bool
  deriving DecidableEq, Repr

/-- The platform services used by `Action`. -/
structure Runtime where
  /-- `fs.existsSync(path)` -/
  existsSync : String → Bool
  /-- `fs.lstatSync(path).isDirectory()` -/
  lstatIsDirectory : String → Bool
  /-- `fs.readdirSync(path, { withFileTypes: true })` -/
  readdirSync : String → Except String (List Dirent)
  /-- `fs.readFileSync(path, { encoding: "utf-8" })` -/
  readFileSync : String → Except String String
  /-- `JSON.parse(text)` -/
  jsonParse : String → Except String JsValue
  /-- `new RegExp(pattern)`, as the predicate `name => regexp.test(name)` -/
  newRegExp : String → Except String (String → Bool)
  /-- `path.join(...segments)` -/
  pathJoin : List String → String
  /-- `path.dirname(path)` -/
  pathDirname : String → String
  /-- `path.basename(path)` -/
  pathBasename : String → String

/-! ## String helpers -/

/-- `lodash.isEmpty(value)` on a string. -/
def lodashIsEmpty (value : String) : Bool := value.length == 0

/-- The characters removed by `String.prototype.trim` (WhiteSpace and
LineTerminator). -/
def isJsWhiteSpace (c : Char) : Bool :=
  [9, 10, 11, 12, 13, 32, 160, 5760, 8232, 8233, 8239, 8287, 12288, 65279].contains c.toNat
    || (8192 ≤ c.toNat && c.toNat ≤ 8202)

/-- `part.trim()`. -/
def trim (part : String) : String :=
  String.mk ((part.data.dropWhile isJsWhiteSpace).reverse.dropWhile isJsWhiteSpace).reverse

/-- Split a character list at every occurrence of `sep`. -/
def splitChars (sep : Char) : List Char → List (List Char)
  | [] => [[]]
  | c :: cs =>
    if c = sep then [] :: splitChars sep cs
    else
      match splitChars sep cs with
      | [] => [[c]]
      | line :: lines => (c :: line) :: lines

/-- `text.split("\n")`. -/
def splitNewline (text : String) : List String :=
  (splitChars '\n' text.data).map String.mk

/-- `array.indexOf(x)`: position of the first element equal to `x`, `-1` when
there is none. -/
def indexOf (array : List String) (x : String) : Int :=
  match array with
  | [] => -1
  | y :: ys => if y = x then 0 else
    let r := indexOf ys x
    if r < 0 then -1 else r + 1

/-- `array.filter((x, index, array) => p(x, index, array))`, scanning from
position `index`. -/
def filterFrom (p : String → Nat → Bool) : Nat → List String → List String
  | _, [] => []
  | index, x :: xs =>
    if p x index then x :: filterFrom p (index + 1) xs else filterFrom p (index + 1) xs

/-- `array.filter((x, index, array) => p(x, index, array))`. -/
def arrayFilter (p : String → Nat → List String → Bool) (array : List String) : List String :=
  filterFrom (fun x index => p x index array) 0 array

/-- `array.map(f)` for a callback that may throw: elements are visited left to
right and the first exception aborts the traversal. -/
def mapThrowing {α β ε : Type} (f : α → Except ε β) : List α → Except ε (List β)
  | [] => .ok []
  | x :: xs =>
    match f x with
    | .error e => .error e
    | .ok y =>
      match mapThrowing f xs with
      | .error e => .error e
      | .ok ys => .ok (y :: ys)

/-! ## The class `Action` -/

/-- `const defaultRegExp = "\\.json$"`. -/
def defaultRegExp : String := "\\.json$"

/-- An instance of `Action`: its four private fields. -/
structure Action where
  files : String
  searchPath : String
  searchPattern : String
  fileList : List String

/-- `#normalizePath(input)`. -/
def normalizePath (rt : Runtime) (input : String) : String :=
  let normalizedPath := rt.pathJoin [input]
  let lastSegment := rt.pathBasename normalizedPath
  let newPath := rt.pathJoin [rt.pathDirname normalizedPath, lastSegment]
  newPath

/-- `#getFilesFromPath()`. -/
def getFilesFromPath (rt : Runtime) (searchPath searchPattern : String) :
    Except ActionError (List String) :=
  match liftRuntime (rt.newRegExp searchPattern) with
  | .error e => .error e
  | .ok regexp =>
    match liftRuntime (rt.readdirSync searchPath) with
    | .error e => .error e
    | .ok entries =>
      let files :=
        (entries.filter (fun file => if file.isDirectory then false else regexp file.name)).map
          (fun file => normalizePath rt searchPath ++ "/" ++ file.name)
      if files.length < 2 then
        .error (.NotEnoughFiles "You need at least 2 files to be compared.")
      else .ok files

/-- `#validateSearchPath()`. -/
def validateSearchPath (rt : Runtime) (searchPath searchPattern : String) :
    Except ActionError (List String) :=
  if lodashIsEmpty searchPath then
    .error (.EmptySearchPath "Search path can't be empty.")
  else if !rt.existsSync searchPath || !rt.lstatIsDirectory searchPath then
    .error (.InvalidSearchPath
      ("Invalid path '" ++ searchPath ++ "', path should exists and be a directory."))
  else getFilesFromPath rt searchPath searchPattern

/-- The chain `split("\n").map(trim).filter(non-empty)` of `#validateFiles()`. -/
def listedParts (files : String) : List String :=
  ((splitNewline files).map (fun part => trim part)).filter (fun part => !lodashIsEmpty part)

/-- The callback of the last `.map` of `#validateFiles()`. -/
def checkExists (rt : Runtime) (file : String) : Except ActionError String :=
  if !rt.existsSync file then .error (.NotFoundPath ("File " ++ file ++ " not found."))
  else .ok file

/-- `#validateFiles()`. -/
def validateFiles (rt : Runtime) (files : String) : Except ActionError (List String) :=
  match mapThrowing (checkExists rt)
      (arrayFilter (fun part index array => indexOf array part == (index : Int))
        (listedParts files)) with
  | .error e => .error e
  | .ok parts =>
    if parts.length < 2 then
      .error (.NotEnoughFiles "You need at least 2 files to be compared.")
    else .ok parts

/-- `#validateInputs()`. -/
def validateInputs (rt : Runtime) (files searchPath searchPattern : String) :
    Except ActionError (List String) :=
  if !lodashIsEmpty files then validateFiles rt files
  else validateSearchPath rt searchPath searchPattern

/-- `new Action(files, searchPath, searchPattern)`. -/
def Action.constructor (rt : Runtime) (files searchPath searchPattern : String) :
    Except ActionError Action :=
  let pattern := if !lodashIsEmpty searchPattern then searchPattern else defaultRegExp
  match validateInputs rt files searchPath pattern with
  | .error e => .error e
  | .ok fileList =>
    .ok { files := files, searchPath := searchPath, searchPattern := pattern,
          fileList := fileList }

/-- `getFileList()`. -/
def Action.getFileList (action : Action) : List String := action.fileList

/-- `Object.keys(JSON.parse(fs.readFileSync(file, { encoding: "utf-8" })))`. -/
def fileKeys (rt : Runtime) (file : String) : Except ActionError (List String) :=
  match liftRuntime (rt.readFileSync file) with
  | .error e => .error e
  | .ok content =>
    match liftRuntime (rt.jsonParse content) with
    | .error e => .error e
    | .ok value => objectKeys value

/-- The `forEach` of `#readFilesContent()`, started on the object built so far. -/
def readFilesLoop (rt : Runtime) :
    List String → JsObject (List String) → Except ActionError (JsObject (List String))
  | [], contents => .ok contents
  | file :: rest, contents =>
    match fileKeys rt file with
    | .error e => .error e
    | .ok keys => readFilesLoop rt rest (contents.assign file keys)

/-- `#readFilesContent()`. -/
def readFilesContent (rt : Runtime) (fileList : List String) :
    Except ActionError (JsObject (List String)) :=
  readFilesLoop rt fileList []

/-- `contents[file]` for a `file` taken from `Object.keys(contents)` (always an
own property, so the default is never used). -/
def keysOfFile (contents : JsObject (List String)) (file : String) : List String :=
  (contents.get? file).getD []

/-- The inner `keys.forEach((file2) => ...)` of `#compareContents`: the final
value of `missing` for `file1`, started from `missing`. -/
def missingLoop (contents : JsObject (List String)) (file1 : String) :
    List String → List String → List String
  | [], missing => missing
  | file2 :: rest, missing =>
    if file1 = file2 then missingLoop contents file1 rest missing
    else
      let keysFile1 := keysOfFile contents file1
      let keysFile2 := keysOfFile contents file2
      missingLoop contents file1 rest
        (missing ++ keysFile2.filter (fun key =>
          let notInKeys1 := !keysFile1.contains key
          let notInMissing := !missing.contains key
          notInKeys1 && notInMissing))

/-- The outer `keys.forEach((file1) => ...)` of `#compareContents`, started on
the report built so far. -/
def compareLoop (contents : JsObject (List String)) (keys : List String) :
    List String → JsObject (List String) → JsObject (List String)
  | [], missingKeys => missingKeys
  | file1 :: rest, missingKeys =>
    let missing := missingLoop contents file1 keys []
    if missing.length > 0 then compareLoop contents keys rest (missingKeys.assign file1 missing)
    else compareLoop contents keys rest missingKeys

/-- `#compareContents(contents)`. -/
def compareContents (contents : JsObject (List String)) : JsObject (List String) :=
  let keys := JsObject.keys contents
  compareLoop contents keys keys []

/-- `run()`. -/
def Action.run (rt : Runtime) (action : Action) : Except ActionError (JsObject (List String)) :=
  match readFilesContent rt action.fileList with
  | .error e => .error e
  | .ok contents => .ok (compareContents contents)

/-- What `#readFilesContent()` guarantees about the object it returns: no key is
listed twice, `__proto__` is never an own key, and no key list repeats a key. -/
structure ContentMap (contents : JsObject (List String)) : Prop where
  keys_nodup : (JsObject.keys contents).Nodup
  no_proto : "__proto__" ∉ JsObject.keys contents
  entries_nodup : ∀ file keys, contents.get? file = some keys → keys.Nodup

/-! ## Reference definitions, after the specification -/

/-- Keep the first occurrence of each element, skipping those already `seen`. -/
def keepFirstFrom (seen : List String) : List String → List String
  | [] => []
  | x :: xs => if x ∈ seen then keepFirstFrom seen xs else x :: keepFirstFrom (x :: seen) xs

/-- Remove duplicates keeping the first occurrence of each element, in the
original order. -/
def keepFirst (xs : List String) : List String := keepFirstFrom [] xs

/-- The resolved list of explicit-file mode as the specification words it: the
lines of `files` split on newline, each trimmed, blank lines discarded,
duplicates removed keeping the first occurrence. -/
def specExplicitFiles (files : String) : List String :=
  keepFirst (((splitNewline files).map trim).filter (fun line => line ≠ ""))

/-- The missing keys of file `a` as the specification words them: scan the other
files `b` in list order, take the keys of `b` (in the order of `b`) that are not
keys of `a`, keep the first occurrence of each key. -/
def specMissing (fileList : List String) (keysOf : String → List String) (a : String) :
    List String :=
  keepFirst (((fileList.filter (fun b => b ≠ a)).map
    (fun b => (keysOf b).filter (fun k => k ∉ keysOf a))).flatten)

/-- The directory entries that remain after directory exclusion and pattern
filtering. -/
def searchCandidates (regexp : String → Bool) (entries : List Dirent) : List Dirent :=
  entries.filter (fun entry => !entry.isDirectory && regexp entry.name)

/-! ## Node's `path.posix`, for the example platform -/

/-- The segment stack of `normalizeString`: empty and `.` segments are dropped,
`..` removes the previous segment unless there is none or it is `..` itself, in
which case it is kept only when `allowAboveRoot`. The stack is kept reversed. -/
def normalizeSegments (allowAboveRoot : Bool) :
    List (List Char) → List (List Char) → List (List Char)
  | [], res => res.reverse
  | seg :: rest, res =>
    if seg = [] || seg = ['.'] then normalizeSegments allowAboveRoot rest res
    else if seg = ['.', '.'] then
      match res with
      | [] =>
        if allowAboveRoot then normalizeSegments allowAboveRoot rest [seg]
        else normalizeSegments allowAboveRoot rest []
      | last :: above =>
        if last = ['.', '.'] then
          if allowAboveRoot then normalizeSegments allowAboveRoot rest (seg :: last :: above)
          else normalizeSegments allowAboveRoot rest (last :: above)
        else normalizeSegments allowAboveRoot rest above
    else normalizeSegments allowAboveRoot rest (seg :: res)

/-- `path.posix.normalize(path)`. -/
def posixNormalize (path : String) : String :=
  if path.length == 0 then "."
  else
    let isAbsolute := path.data.head? == some '/'
    let trailingSeparator := path.data.getLast? == some '/'
    let body := String.intercalate "/"
      ((normalizeSegments (!isAbsolute) (splitChars '/' path.data) []).map String.mk)
    if body.length == 0 then
      if isAbsolute then "/" else if trailingSeparator then "./" else "."
    else
      let body := if trailingSeparator then body ++ "/" else body
      if isAbsolute then "/" ++ body else body

/-- `path.posix.join(...segments)`. -/
def posixJoin (segments : List String) : String :=
  match segments.filter (fun arg => arg.length > 0) with
  | [] => "."
  | parts => posixNormalize (String.intercalate "/" parts)

/-- `path.posix.basename(path)`. -/
def posixBasename (path : String) : String :=
  String.mk
    ((path.data.reverse.dropWhile (fun c => c == '/')).takeWhile (fun c => c != '/')).reverse

/-- `path.posix.dirname(path)`. -/
def posixDirname (path : String) : String :=
  match path.data with
  | [] => "."
  | first :: tail =>
    let hasRoot := first == '/'
    let upToSlash :=
      (tail.reverse.dropWhile (fun c => c == '/')).dropWhile (fun c => c != '/')
    match upToSlash with
    | [] => if hasRoot then "/" else "."
    | _ :: before =>
      if hasRoot && before.isEmpty then "//" else String.mk (first :: before.reverse)

/-! ## A concrete platform for examples -/

/-- Whether `name` ends with `suffix`. -/
def endsWith (name suffix : String) : Bool := suffix.data.isSuffixOf name.data

/-- A directory `locales` holding `en.json`, `fr.json`, `de.json`, `notes.txt`
and a sub-directory `archive`, next to the plain files `same1.json`,
`same2.json`, `b.json`, `1` and `2`. `RegExp` knows the two patterns of the
test-suite. -/
def demo : Runtime where
  existsSync := fun p =>
    ["locales", "locales/", "locales/en.json", "locales/fr.json", "locales/de.json", "same1.json",
      "same2.json", "b.json", "1", "2"].contains p
  lstatIsDirectory := fun p => p == "locales" || p == "locales/"
  readdirSync := fun p =>
    if p = "locales" ∨ p = "locales/" then
      .ok [⟨"en.json", false⟩, ⟨"fr.json", false⟩, ⟨"archive", true⟩, ⟨"notes.txt", false⟩,
        ⟨"de.json", false⟩]
    else .error "ENOTDIR: not a directory, scandir"
  readFileSync := fun p =>
    if p = "locales/en.json" then .ok "\x7b\"hello\":1,\"bye\":2,\"X\":3\x7d"
    else if p = "locales/fr.json" then .ok "\x7b\"hello\":1,\"X\":3\x7d"
    else if p = "locales/de.json" then .ok "\x7b\"hello\":1,\"bye\":2\x7d"
    else if p = "same1.json" then .ok "\x7b\"a\":1,\"b\":2\x7d"
    else if p = "same2.json" then .ok "\x7b\"b\":1,\"a\":2\x7d"
    else if p = "b.json" then .ok "\x7b\x7d"
    else if p = "2" then .ok "\x7b\"x\":1\x7d"
    else if p = "1" then .ok "\x7b\"y\":1\x7d"
    else .error "ENOENT: no such file or directory, open"
  jsonParse := fun text =>
    if text = "\x7b\"hello\":1,\"bye\":2,\"X\":3\x7d" then
      .ok (.object [("hello", .number), ("bye", .number), ("X", .number)])
    else if text = "\x7b\"hello\":1,\"X\":3\x7d" then
      .ok (.object [("hello", .number), ("X", .number)])
    else if text = "\x7b\"hello\":1,\"bye\":2\x7d" then
      .ok (.object [("hello", .number), ("bye", .number)])
    else if text = "\x7b\"a\":1,\"b\":2\x7d" then .ok (.object [("a", .number), ("b", .number)])
    else if text = "\x7b\"b\":1,\"a\":2\x7d" then .ok (.object [("b", .number), ("a", .number)])
    else if text = "\x7b\x7d" then .ok (.object [])
    else if text = "\x7b\"x\":1\x7d" then .ok (.object [("x", .number)])
    else if text = "\x7b\"y\":1\x7d" then .ok (.object [("y", .number)])
    else .error "Unexpected token"
  newRegExp := fun pattern =>
    if pattern = "\\.json$" then .ok (fun name => endsWith name ".json")
    else if pattern = "json$" then .ok (fun name => endsWith name "json")
    else .error "Invalid regular expression"
  pathJoin := posixJoin
  pathDirname := posixDirname
  pathBasename := posixBasename

/-- The three locale files of `demo`, as resolved from the directory `locales`. -/
def localesAction : Action where
  files := ""
  searchPath := "locales"
  searchPattern := defaultRegExp
  fileList := ["locales/en.json", "locales/fr.json", "locales/de.json"]

/-- The content map of `localesAction`. -/
def localesContents : JsObject (List String) :=
  [("locales/en.json", ["hello", "bye", "X"]), ("locales/fr.json", ["hello", "X"]),
    ("locales/de.json", ["hello", "bye"])]

/-- The report of `localesAction`. -/
def localesReport : JsObject (List String) :=
  [("locales/fr.json", ["bye"]), ("locales/de.json", ["X"])]

/-- The explicit files `same1.json`, `same2.json` of `demo`. -/
def sameAction : Action where
  files := "same1.json\nsame2.json"
  searchPath := ""
  searchPattern := defaultRegExp
  fileList := ["same1.json", "same2.json"]

/-- The content map of `sameAction`. -/
def sameContents : JsObject (List String) :=
  [("same1.json", ["a", "b"]), ("same2.json", ["b", "a"])]

/-- The explicit files `b.json`, `2`, `1` of `demo`, in the order listed. -/
def numberedAction : Action where
  files := "b.json\n2\n1"
  searchPath := ""
  searchPattern := defaultRegExp
  fileList := ["b.json", "2", "1"]

/-- The content map of `numberedAction`, in `Object.keys` order. -/
def numberedContents : JsObject (List String) :=
  [("1", ["y"]), ("2", ["x"]), ("b.json", [])]

/-- The report of `numberedAction`. -/
def numberedReport : JsObject (List String) :=
  [("1", ["x"]), ("2", ["y"]), ("b.json", ["y", "x"])]

/-- The fixture of the test "Should return differences of each file": the
directory `/some/search/folder/` lists `file1.json`, `file2.ejson`, the directory
`folder` and `file3.txt`. -/
def fixture : Runtime where
  existsSync := fun p => p == "/some/search/folder/"
  lstatIsDirectory := fun p => p == "/some/search/folder/"
  readdirSync := fun _ =>
    .ok [⟨"file1.json", false⟩, ⟨"file2.ejson", false⟩, ⟨"folder", true⟩,
      ⟨"file3.txt", false⟩]
  readFileSync := fun p =>
    if p = "/some/search/folder/file1.json" then
      .ok "\x7b\"common\":1,\"missing1\":\"some\"\x7d"
    else if p = "/some/search/folder/file2.ejson" then
      .ok "\x7b\"common\":1,\"missing2\":\"some\"\x7d"
    else .error "ENOENT: no such file or directory, open"
  jsonParse := fun text =>
    if text = "\x7b\"common\":1,\"missing1\":\"some\"\x7d" then
      .ok (.object [("common", .number), ("missing1", .string "some")])
    else if text = "\x7b\"common\":1,\"missing2\":\"some\"\x7d" then
      .ok (.object [("common", .number), ("missing2", .string "some")])
    else .error "Unexpected token"
  newRegExp := fun pattern =>
    if pattern = "\\.json$" then .ok (fun name => endsWith name ".json")
    else if pattern = "json$" then .ok (fun name => endsWith name "json")
    else .error "Invalid regular expression"
  pathJoin := posixJoin
  pathDirname := posixDirname
  pathBasename := posixBasename

/-- The instance built by that test. -/
def fixtureAction : Action where
  files := ""
  searchPath := "/some/search/folder/"
  searchPattern := "json$"
  fileList := ["/some/search/folder/file1.json", "/some/search/folder/file2.ejson"]

/-- The content map of `fixtureAction`. -/
def fixtureContents : JsObject (List String) :=
  [("/some/search/folder/file1.json", ["common", "missing1"]),
    ("/some/search/folder/file2.ejson", ["common", "missing2"])]

/-- The report the test expects. -/
def fixtureReport : JsObject (List String) :=
  [("/some/search/folder/file1.json", ["missing2"]),
    ("/some/search/folder/file2.ejson", ["missing1"])]

/-- A filesystem whose root directory `/` holds `file1.json` and `file2.json`. -/
def rootFs : Runtime where
  existsSync := fun p => p == "/" || p == "/file1.json" || p == "/file2.json"
  lstatIsDirectory := fun p => p == "/"
  readdirSync := fun p =>
    if p = "/" then .ok [⟨"file1.json", false⟩, ⟨"file2.json", false⟩]
    else .error "ENOTDIR: not a directory, scandir"
  readFileSync := fun p =>
    if p = "/file1.json" ∨ p = "/file2.json" then .ok "\x7b\x7d"
    else .error "ENOENT: no such file or directory, open"
  jsonParse := fun text =>
    if text = "\x7b\x7d" then .ok (.object []) else .error "Unexpected token"
  newRegExp := fun pattern =>
    if pattern = "\\.json$" then .ok (fun name => endsWith name ".json")
    else if pattern = "json$" then .ok (fun name => endsWith name "json")
    else .error "Invalid regular expression"
  pathJoin := posixJoin
  pathDirname := posixDirname
  pathBasename := posixBasename

/-- Four files whose documents are an array, an object, `null` and a truncated
text. -/
def mixed : Runtime where
  existsSync := fun p =>
    ["list.json", "obj.json", "null.json", "bad.json"].contains p
  lstatIsDirectory := fun _ => false
  readdirSync := fun _ => .error "ENOTDIR: not a directory, scandir"
  readFileSync := fun p =>
    if p = "list.json" then .ok "[\"a\",\"b\"]"
    else if p = "obj.json" then .ok "\x7b\"0\":1\x7d"
    else if p = "null.json" then .ok "null"
    else if p = "bad.json" then .ok "\x7b"
    else .error "ENOENT: no such file or directory, open"
  jsonParse := fun text =>
    if text = "[\"a\",\"b\"]" then .ok (.array [.string "a", .string "b"])
    else if text = "\x7b\"0\":1\x7d" then .ok (.object [("0", .number)])
    else if text = "null" then .ok .null
    else .error "Unexpected end of JSON input"
  newRegExp := fun pattern =>
    if pattern = "\\.json$" then .ok (fun name => endsWith name ".json")
    else if pattern = "json$" then .ok (fun name => endsWith name "json")
    else .error "Invalid regular expression"
  pathJoin := posixJoin
  pathDirname := posixDirname
  pathBasename := posixBasename

/-- The explicit files `list.json`, `obj.json` of `mixed`. -/
def mixedAction : Action where
  files := "list.json\nobj.json"
  searchPath := ""
  searchPattern := defaultRegExp
  fileList := ["list.json", "obj.json"]

/-- A platform whose listing of the directory `d` names `a.json` twice. -/
def repeated : Runtime where
  existsSync := fun p => p == "d" || p == "d/a.json"
  lstatIsDirectory := fun p => p == "d"
  readdirSync := fun p =>
    if p = "d" then .ok [⟨"a.json", false⟩, ⟨"a.json", false⟩]
    else .error "ENOTDIR: not a directory, scandir"
  readFileSync := fun p =>
    if p = "d/a.json" then .ok "\x7b\x7d"
    else .error "ENOENT: no such file or directory, open"
  jsonParse := fun text =>
    if text = "\x7b\x7d" then .ok (.object []) else .error "Unexpected token"
  newRegExp := fun pattern =>
    if pattern = "\\.json$" then .ok (fun name => endsWith name ".json")
    else if pattern = "json$" then .ok (fun name => endsWith name "json")
    else .error "Invalid regular expression"
  pathJoin := posixJoin
  pathDirname := posixDirname
  pathBasename := posixBasename

/-! ## The entry point `index.js` -/

/-- A call that `main` makes on `@actions/core`. -/
inductive Signal where
  | info (message : String)
  | setFailed (message : String)
  deriving DecidableEq, Repr

/-- What an execution of `main` leaves behind: its calls on `core`, in order,
and the exception that left `main` uncaught, if any. -/
structure MainOutcome where
  signals : List Signal
  uncaught : Option ActionError
  deriving DecidableEq, Repr

/-- `missing[key]` for a `key` taken from `Object.keys(missing)`. -/
def missingOf (missing : JsObject (List String)) (key : String) : List String :=
  (missing.get? key).getD []

/-- The `keys.forEach((key) => ...)` of `main`: one `core.info(key)` and then
one `core.info` per item of `missing[key]`. -/
def reportLines (missing : JsObject (List String)) : List String → List Signal
  | [] => []
  | key :: rest =>
    (Signal.info key :: (missingOf missing key).map (fun item => Signal.info ("- " ++ item)))
      ++ reportLines missing rest

/-- `main()`, for the inputs that `core.getInput` returns: the instance is
built before the `try` block, `run` and the reporting are inside it. -/
def main (rt : Runtime) (getInput : String → String) : MainOutcome :=
  match Action.constructor rt (getInput "files") (getInput "search_path")
      (getInput "search_pattern") with
  | .error e => { signals := [], uncaught := some e }
  | .ok action =>
    match action.run rt with
    | .error e => { signals := [.setFailed e.message], uncaught := none }
    | .ok missing =>
      let keys := JsObject.keys missing
      if keys.length = 0 then
        { signals := [.info "No differences found in files!!"], uncaught := none }
      else
        { signals := .setFailed "Differences found on the next files:"
            :: reportLines missing keys,
          uncaught := none }

/-- The inputs of a workflow step as a function of the input name. -/
def inputsOf (files searchPath searchPattern : String) : String → String :=
  fun name =>
    if name = "files" then files
    else if name = "search_path" then searchPath
    else if name = "search_pattern" then searchPattern
    else ""

/-! ## Lemmas: plain objects -/

namespace JsObject

variable {α : Type}

theorem keys_cons (k : String) (v : α) (o : JsObject α) : keys ((k, v) :: o) = k :: keys o := rfl

theorem hasOwn_iff (o : JsObject α) (key : String) : hasOwn o key = true ↔ key ∈ keys o := by
  induction o with
  | nil => simp [hasOwn, keys]
  | cons p rest ih =>
    obtain ⟨k, v⟩ := p
    simp only [hasOwn, keys, List.any_cons, Bool.or_eq_true, beq_iff_eq, List.map_cons,
      List.mem_cons] at ih ⊢
    rw [ih]
    constructor
    · rintro (h | h)
      · exact Or.inl h.symm
      · exact Or.inr h
    · rintro (h | h)
      · exact Or.inl h.symm
      · exact Or.inr h

theorem get?_eq_none_iff (o : JsObject α) (key : String) : get? o key = none ↔ key ∉ keys o := by
  induction o with
  | nil => simp [get?, keys]
  | cons p rest ih =>
    obtain ⟨k, v⟩ := p
    by_cases h : key = k
    · simp [get?, keys, h]
    · simp only [get?, h, if_false, keys, List.map_cons, List.mem_cons, false_or] at ih ⊢
      exact ih

theorem get?_isSome_iff (o : JsObject α) (key : String) :
    (∃ v, get? o key = some v) ↔ key ∈ keys o := by
  have h := get?_eq_none_iff o key
  cases hg : get? o key with
  | none => rw [hg] at h; simp at h; simp [h]
  | some v =>
    rw [hg] at h
    simp only [reduceCtorEq, false_iff, not_not] at h
    simp [h]

theorem mem_of_get? (o : JsObject α) (key : String) (v : α) (h : get? o key = some v) :
    (key, v) ∈ o := by
  induction o with
  | nil => simp [get?] at h
  | cons p rest ih =>
    obtain ⟨k, w⟩ := p
    by_cases hk : key = k
    · simp only [get?, hk, if_true, Option.some.injEq] at h
      simp [hk, h]
    · simp only [get?, hk, if_false] at h
      exact List.mem_cons_of_mem _ (ih h)

theorem get?_of_mem (o : JsObject α) (hnd : (keys o).Nodup) (key : String) (v : α)
    (h : (key, v) ∈ o) : get? o key = some v := by
  induction o with
  | nil => simp at h
  | cons p rest ih =>
    obtain ⟨k, w⟩ := p
    simp only [keys, List.map_cons, List.nodup_cons] at hnd
    rcases List.mem_cons.mp h with h | h
    · simp only [Prod.mk.injEq] at h
      simp [get?, h.1, h.2]
    · have hk : key ≠ k := by
        intro hEq
        exact hnd.1 (List.mem_map.mpr ⟨(key, v), h, hEq⟩)
      simp only [get?, hk, if_false]
      exact ih hnd.2 h

theorem keys_replace (o : JsObject α) (key : String) (value : α) :
    keys (replace o key value) = keys o := by
  induction o with
  | nil => rfl
  | cons p rest ih =>
    obtain ⟨k, w⟩ := p
    simp only [replace, keys, List.map_cons, List.map_map] at ih ⊢
    by_cases hk : k = key
    · simp [hk, ih]
    · simp [hk, ih]

theorem get?_replace (o : JsObject α) (key : String) (value : α) (k : String)
    (hmem : key ∈ keys o) :
    get? (replace o key value) k = if k = key then some value else get? o k := by
  induction o with
  | nil => simp [keys] at hmem
  | cons p rest ih =>
    obtain ⟨k0, w⟩ := p
    by_cases h0 : k0 = key
    · subst h0
      by_cases hk : k = k0
      · have : replace ((k0, w) :: rest) k0 value = (k0, value) :: replace rest k0 value := by
          simp [replace]
        rw [this]
        simp [get?, hk]
      · have : replace ((k0, w) :: rest) k0 value = (k0, value) :: replace rest k0 value := by
          simp [replace]
        rw [this]
        simp only [get?, hk, if_false]
        by_cases hr : k0 ∈ keys rest
        · rw [ih hr]; simp [hk]
        · have hrep : replace rest k0 value = rest := by
            simp only [replace]
            conv_rhs => rw [← List.map_id rest]
            apply List.map_congr_left
            intro a ha
            have : a.1 ≠ k0 := by
              intro hEq
              exact hr (List.mem_map.mpr ⟨a, ha, hEq⟩)
            simp [this]
          rw [hrep]
    · have hr : key ∈ keys rest := by
        simp only [keys, List.map_cons, List.mem_cons] at hmem
        rcases hmem with h | h
        · exact absurd h.symm h0
        · exact h
      have : replace ((k0, w) :: rest) key value = (k0, w) :: replace rest key value := by
        simp [replace, h0]
      rw [this]
      by_cases hk : k = k0
      · have : k ≠ key := by rw [hk]; exact h0
        simp [get?, hk, h0]
      · simp only [get?, hk, if_false]
        exact ih hr

theorem keys_insertIndex_perm (o : JsObject α) (n : Nat) (key : String) (value : α) :
    List.Perm (keys (insertIndex o n key value)) (key :: keys o) := by
  induction o with
  | nil => simp [insertIndex, keys]
  | cons p rest ih =>
    obtain ⟨k, w⟩ := p
    simp only [insertIndex]
    cases hidx : arrayIndex? k with
    | none => simp [keys]
    | some m =>
      simp only
      by_cases hm : m < n
      · simp only [hm, if_true, keys_cons]
        exact (List.Perm.cons k ih).trans (List.Perm.swap key k (keys rest))
      · simp [hm, keys]

theorem get?_insertIndex (o : JsObject α) (n : Nat) (key : String) (value : α) (k : String)
    (hnew : key ∉ keys o) :
    get? (insertIndex o n key value) k = if k = key then some value else get? o k := by
  induction o with
  | nil => simp [insertIndex, get?]
  | cons p rest ih =>
    obtain ⟨k0, w⟩ := p
    simp only [keys, List.map_cons, List.mem_cons, not_or] at hnew
    have ih := ih hnew.2
    simp only [insertIndex]
    cases hidx : arrayIndex? k0 with
    | none => simp [get?]
    | some m =>
      simp only
      by_cases hm : m < n
      · simp only [hm, if_true, get?]
        by_cases hk : k = k0
        · have hkey : k0 ≠ key := fun h => hnew.1 h.symm
          simp [hk, hkey]
        · simp only [hk, if_false]
          exact ih
      · simp [hm, get?]

theorem get?_append_single (o : JsObject α) (key : String) (value : α) (k : String)
    (hnew : key ∉ keys o) :
    get? (o ++ [(key, value)]) k = if k = key then some value else get? o k := by
  induction o with
  | nil => simp [get?]
  | cons p rest ih =>
    obtain ⟨k0, w⟩ := p
    simp only [keys, List.map_cons, List.mem_cons, not_or] at hnew
    have ih := ih hnew.2
    simp only [List.cons_append, get?]
    by_cases hk : k = k0
    · have hkey : k0 ≠ key := fun h => hnew.1 h.symm
      simp [hk, hkey]
    · simp only [hk, if_false]
      exact ih

theorem get?_defineProperty (o : JsObject α) (key : String) (value : α) (k : String) :
    get? (defineProperty o key value) k = if k = key then some value else get? o k := by
  unfold defineProperty
  by_cases h : hasOwn o key = true
  · rw [if_pos h]
    exact get?_replace o key value k ((hasOwn_iff o key).mp h)
  · rw [if_neg h]
    have hnew : key ∉ keys o := fun hm => h ((hasOwn_iff o key).mpr hm)
    cases arrayIndex? key with
    | none => exact get?_append_single o key value k hnew
    | some n => exact get?_insertIndex o n key value k hnew

theorem mem_keys_defineProperty (o : JsObject α) (key : String) (value : α) (k : String) :
    k ∈ keys (defineProperty o key value) ↔ k = key ∨ k ∈ keys o := by
  rw [← get?_isSome_iff, ← get?_isSome_iff, get?_defineProperty]
  by_cases hk : k = key
  · simp [hk]
  · simp [hk]

theorem nodup_keys_defineProperty (o : JsObject α) (key : String) (value : α)
    (hnd : (keys o).Nodup) : (keys (defineProperty o key value)).Nodup := by
  unfold defineProperty
  by_cases h : hasOwn o key = true
  · rw [if_pos h, keys_replace]; exact hnd
  · rw [if_neg h]
    have hnew : key ∉ keys o := fun hm => h ((hasOwn_iff o key).mpr hm)
    cases arrayIndex? key with
    | none =>
      simp only [keys, List.map_append, List.map_cons, List.map_nil]
      rw [List.nodup_append]
      refine ⟨hnd, by simp, ?_⟩
      intro a ha hb
      simp only [List.mem_singleton] at hb
      subst hb
      exact hnew ha
    | some n =>
      exact ((keys_insertIndex_perm o n key value).nodup_iff).mpr (List.nodup_cons.mpr ⟨hnew, hnd⟩)

theorem defineProperty_of_plain (o : JsObject α) (key : String) (value : α)
    (hnew : key ∉ keys o) (hidx : arrayIndex? key = none) :
    defineProperty o key value = o ++ [(key, value)] := by
  unfold defineProperty
  have h : ¬ hasOwn o key = true := fun h => hnew ((hasOwn_iff o key).mp h)
  rw [if_neg h, hidx]

end JsObject

/-! ## Lemmas: keys of a parsed document -/

theorem digitChar_toNat (k : Nat) (h : k < 10) : (Nat.digitChar k).toNat - 48 = k := by
  interval_cases k <;> rfl

theorem foldl_toDigitsCore (fuel : Nat) : ∀ (n : Nat) (acc : List Char), n < fuel →
    (Nat.toDigitsCore 10 fuel n acc).foldl (fun a c => 10 * a + (c.toNat - 48)) 0
      = acc.foldl (fun a c => 10 * a + (c.toNat - 48)) n := by
  induction fuel with
  | zero => intro n acc h; omega
  | succ fuel ih =>
    intro n acc h
    simp only [Nat.toDigitsCore]
    have hd := digitChar_toNat (n % 10) (Nat.mod_lt _ (by decide))
    by_cases h0 : n / 10 = 0
    · simp only [h0, if_true, List.foldl_cons, Nat.mul_zero, Nat.zero_add, hd]
      have : n % 10 = n := by omega
      rw [this]
    · simp only [h0, if_false]
      rw [ih (n / 10) _ (by omega)]
      simp only [List.foldl_cons, hd]
      have : 10 * (n / 10) + n % 10 = n := by omega
      rw [this]

theorem decimalValue_toString (n : Nat) : decimalValue (toString n).data = n := by
  show decimalValue (Nat.repr n).data = n
  simp only [Nat.repr, Nat.toDigits, List.asString, decimalValue]
  rw [foldl_toDigitsCore (n + 1) n [] (by omega)]
  rfl

theorem indexKeys_nodup (n : Nat) : (indexKeys n).Nodup := by
  unfold indexKeys
  refine List.Nodup.map ?_ (List.nodup_range n)
  intro a b h
  have := congrArg (fun s : String => decimalValue s.data) h
  simpa [decimalValue_toString] using this

theorem nodup_keys_foldl_defineProperty {α : Type} (members : List (String × α)) :
    ∀ (o : JsObject α), (JsObject.keys o).Nodup →
      (JsObject.keys (members.foldl (fun o m => JsObject.defineProperty o m.1 m.2) o)).Nodup := by
  induction members with
  | nil => intro o h; exact h
  | cons m rest ih =>
    intro o h
    exact ih _ (JsObject.nodup_keys_defineProperty o m.1 m.2 h)

theorem objectKeys_nodup (value : JsValue) (keys : List String)
    (h : objectKeys value = .ok keys) : keys.Nodup := by
  cases value with
  | null => simp [objectKeys] at h
  | bool b => simp only [objectKeys, Except.ok.injEq] at h; subst h; exact List.nodup_nil
  | number => simp only [objectKeys, Except.ok.injEq] at h; subst h; exact List.nodup_nil
  | string s => simp only [objectKeys, Except.ok.injEq] at h; subst h; exact indexKeys_nodup _
  | array items =>
    simp only [objectKeys, Except.ok.injEq] at h; subst h; exact indexKeys_nodup _
  | object members =>
    simp only [objectKeys, Except.ok.injEq] at h
    subst h
    exact nodup_keys_foldl_defineProperty members [] List.nodup_nil

theorem fileKeys_nodup (rt : Runtime) (file : String) (keys : List String)
    (h : fileKeys rt file = .ok keys) : keys.Nodup := by
  unfold fileKeys at h
  cases h1 : liftRuntime (rt.readFileSync file) with
  | error e => rw [h1] at h; simp at h
  | ok content =>
    rw [h1] at h
    simp only at h
    cases h2 : liftRuntime (rt.jsonParse content) with
    | error e => rw [h2] at h; simp at h
    | ok value =>
      rw [h2] at h
      exact objectKeys_nodup value keys h

/-! ## Lemmas: first occurrences -/

theorem keepFirstFrom_congr (xs : List String) :
    ∀ (s t : List String), (∀ x, x ∈ s ↔ x ∈ t) → keepFirstFrom s xs = keepFirstFrom t xs := by
  induction xs with
  | nil => intro s t _; rfl
  | cons x xs ih =>
    intro s t h
    simp only [keepFirstFrom]
    by_cases hx : x ∈ s
    · rw [if_pos hx, if_pos ((h x).mp hx)]
      exact ih s t h
    · rw [if_neg hx, if_neg (fun ht => hx ((h x).mpr ht))]
      congr 1
      apply ih
      intro y
      simp only [List.mem_cons, h y]

theorem mem_keepFirstFrom (xs : List String) :
    ∀ (s : List String) (y : String), y ∈ keepFirstFrom s xs ↔ y ∈ xs ∧ y ∉ s := by
  induction xs with
  | nil => intro s y; simp [keepFirstFrom]
  | cons x xs ih =>
    intro s y
    simp only [keepFirstFrom]
    by_cases hx : x ∈ s
    · rw [if_pos hx, ih]
      constructor
      · rintro ⟨h1, h2⟩; exact ⟨List.mem_cons_of_mem _ h1, h2⟩
      · rintro ⟨h1, h2⟩
        rcases List.mem_cons.mp h1 with h | h
        · subst h; exact absurd hx h2
        · exact ⟨h, h2⟩
    · rw [if_neg hx, List.mem_cons, ih]
      constructor
      · rintro (h | ⟨h1, h2⟩)
        · subst h; exact ⟨List.mem_cons_self _ _, hx⟩
        · exact ⟨List.mem_cons_of_mem _ h1, fun hs => h2 (List.mem_cons_of_mem _ hs)⟩
      · rintro ⟨h1, h2⟩
        by_cases hy : y = x
        · exact Or.inl hy
        · right
          rcases List.mem_cons.mp h1 with h | h
          · exact absurd h hy
          · refine ⟨h, ?_⟩
            intro hm
            rcases List.mem_cons.mp hm with h' | h'
            · exact hy h'
            · exact h2 h'

theorem nodup_keepFirstFrom (xs : List String) :
    ∀ (s : List String), (keepFirstFrom s xs).Nodup := by
  induction xs with
  | nil => intro s; exact List.nodup_nil
  | cons x xs ih =>
    intro s
    simp only [keepFirstFrom]
    by_cases hx : x ∈ s
    · rw [if_pos hx]; exact ih s
    · rw [if_neg hx]
      refine List.nodup_cons.mpr ⟨?_, ih _⟩
      intro hm
      exact ((mem_keepFirstFrom xs (x :: s) x).mp hm).2 (List.mem_cons_self _ _)

theorem keepFirstFrom_append (xs ys : List String) :
    ∀ (s : List String),
      keepFirstFrom s (xs ++ ys)
        = keepFirstFrom s xs ++ keepFirstFrom (s ++ keepFirstFrom s xs) ys := by
  induction xs with
  | nil => intro s; simp [keepFirstFrom]
  | cons x xs ih =>
    intro s
    simp only [List.cons_append, keepFirstFrom]
    by_cases hx : x ∈ s
    · simp only [if_pos hx]; exact ih s
    · simp only [if_neg hx, List.cons_append]
      congr 1
      show keepFirstFrom (x :: s) (xs ++ ys) = _
      rw [ih (x :: s)]
      congr 1
      apply keepFirstFrom_congr
      intro y
      simp only [List.mem_append, List.mem_cons]
      tauto

theorem keepFirstFrom_of_nodup (xs : List String) :
    ∀ (s : List String), xs.Nodup → keepFirstFrom s xs = xs.filter (fun x => !s.contains x) := by
  induction xs with
  | nil => intro s _; rfl
  | cons x xs ih =>
    intro s hnd
    have hx' := (List.nodup_cons.mp hnd).1
    have hnd' := (List.nodup_cons.mp hnd).2
    simp only [keepFirstFrom]
    by_cases hx : x ∈ s
    · rw [if_pos hx, ih s hnd']
      simp [List.filter_cons, hx]
    · rw [if_neg hx, ih (x :: s) hnd']
      have hc : (!s.contains x) = true := by simp [hx]
      rw [List.filter_cons, if_pos hc]
      congr 1
      apply List.filter_congr
      intro y hy
      have : y ≠ x := fun h => hx' (h ▸ hy)
      simp [this]

theorem keepFirstFrom_of_subset (xs : List String) :
    ∀ (s : List String), (∀ k ∈ xs, k ∈ s) → keepFirstFrom s xs = [] := by
  induction xs with
  | nil => intro s _; rfl
  | cons x xs ih =>
    intro s h
    simp only [keepFirstFrom]
    rw [if_pos (h x (List.mem_cons_self _ _))]
    exact ih s (fun k hk => h k (List.mem_cons_of_mem _ hk))

theorem keepFirstFrom_flatten_keepFirstFrom (g : String → List String) (p : String → Bool)
    (files : List String) :
    ∀ (s t : List String), (∀ b ∈ t, p b = true → ∀ k ∈ g b, k ∈ s) →
      keepFirstFrom s (((keepFirstFrom t files).filter p).map g).flatten
        = keepFirstFrom s ((files.filter p).map g).flatten := by
  induction files with
  | nil => intro s t _; rfl
  | cons b rest ih =>
    intro s t h
    by_cases hbt : b ∈ t
    · simp only [keepFirstFrom, if_pos hbt]
      rw [ih s t h]
      by_cases hp : p b = true
      · simp only [List.filter_cons, hp, if_true, List.map_cons, List.flatten_cons]
        rw [keepFirstFrom_append, keepFirstFrom_of_subset (g b) s (h b hbt hp)]
        simp
      · simp [List.filter_cons, hp]
    · simp only [keepFirstFrom, if_neg hbt]
      by_cases hp : p b = true
      · simp only [List.filter_cons, hp, if_true, List.map_cons, List.flatten_cons]
        rw [keepFirstFrom_append, keepFirstFrom_append]
        congr 1
        apply ih
        intro c hc hpc k hk
        rcases List.mem_cons.mp hc with hcb | hct
        · subst hcb
          by_cases hks : k ∈ s
          · exact List.mem_append_left _ hks
          · exact List.mem_append_right _ ((mem_keepFirstFrom (g c) s k).mpr ⟨hk, hks⟩)
        · exact List.mem_append_left _ (h c hct hpc k hk)
      · simp only [List.filter_cons, hp, if_false]
        have hp' : p b = false := by simpa using hp
        apply ih
        intro c hc hpc k hk
        rcases List.mem_cons.mp hc with hcb | hct
        · subst hcb; rw [hp'] at hpc; exact absurd hpc (by simp)
        · exact h c hct hpc k hk

theorem keepFirst_nodup (xs : List String) : (keepFirst xs).Nodup := nodup_keepFirstFrom xs []

theorem mem_keepFirst (xs : List String) (y : String) : y ∈ keepFirst xs ↔ y ∈ xs := by
  simp [keepFirst, mem_keepFirstFrom]

/-! ## Lemmas: the comparison loops -/

theorem missingLoop_eq (contents : JsObject (List String)) (a : String) (files : List String)
    (hnd : ∀ b ∈ files, (keysOfFile contents b).Nodup) :
    ∀ (missing : List String),
      missingLoop contents a files missing
        = missing ++ keepFirstFrom missing (((files.filter (fun b => b ≠ a)).map
            (fun b => (keysOfFile contents b).filter
              (fun k => k ∉ keysOfFile contents a))).flatten) := by
  induction files with
  | nil => intro missing; simp [missingLoop, keepFirstFrom]
  | cons b rest ih =>
    intro missing
    have ih := ih (fun c hc => hnd c (List.mem_cons_of_mem _ hc))
    by_cases hab : a = b
    · have hf : decide (b ≠ a) = false := by simp [hab]
      simp only [missingLoop, if_pos hab, List.filter_cons, hf]
      exact ih missing
    · have hf : decide (b ≠ a) = true := by
        simp only [ne_eq, decide_not, Bool.not_eq_true', decide_eq_false_iff_not]
        exact fun h => hab h.symm
      have hstep :
          (keysOfFile contents b).filter (fun key =>
              (!(keysOfFile contents a).contains key) && (!missing.contains key))
            = keepFirstFrom missing ((keysOfFile contents b).filter
                (fun k => k ∉ keysOfFile contents a)) := by
        rw [keepFirstFrom_of_nodup _ _ ((hnd b (List.mem_cons_self _ _)).filter _),
          List.filter_filter]
        apply List.filter_congr
        intro k _
        simp [Bool.and_comm]
      simp only [missingLoop, if_neg hab, List.filter_cons, hf, if_true, List.map_cons,
        List.flatten_cons]
      rw [ih, keepFirstFrom_append, hstep, List.append_assoc]

theorem missingLoop_eq_specMissing (contents : JsObject (List String)) (a : String)
    (files : List String) (hnd : ∀ b ∈ files, (keysOfFile contents b).Nodup) :
    missingLoop contents a files [] = specMissing files (keysOfFile contents) a := by
  rw [missingLoop_eq contents a files hnd []]
  rfl

theorem mem_specMissing (fileList : List String) (keysOf : String → List String)
    (a k : String) :
    k ∈ specMissing fileList keysOf a ↔
      k ∉ keysOf a ∧ ∃ b ∈ fileList, b ≠ a ∧ k ∈ keysOf b := by
  unfold specMissing
  rw [mem_keepFirst]
  simp only [List.mem_flatten, List.mem_map, List.mem_filter, decide_eq_true_eq]
  constructor
  · rintro ⟨l, ⟨b, ⟨hb, hba⟩, rfl⟩, hk⟩
    simp only [List.mem_filter, decide_eq_true_eq] at hk
    exact ⟨hk.2, b, hb, hba, hk.1⟩
  · rintro ⟨hka, b, hb, hba, hkb⟩
    refine ⟨_, ⟨b, ⟨hb, hba⟩, rfl⟩, ?_⟩
    simp only [List.mem_filter, decide_eq_true_eq]
    exact ⟨hkb, hka⟩

theorem specMissing_nodup (fileList : List String) (keysOf : String → List String)
    (a : String) : (specMissing fileList keysOf a).Nodup :=
  keepFirst_nodup _

/-! ## Lemmas: assignment -/

namespace JsObject

variable {α : Type}

theorem get?_assign (o : JsObject α) (key : String) (value : α) (k : String)
    (hkey : key ≠ "__proto__") :
    get? (assign o key value) k = if k = key then some value else get? o k := by
  unfold assign
  rw [if_neg hkey]
  exact get?_defineProperty o key value k

theorem assign_proto (o : JsObject α) (value : α) : assign o "__proto__" value = o := by
  simp [assign]

theorem mem_keys_assign (o : JsObject α) (key : String) (value : α) (k : String) :
    k ∈ keys (assign o key value) ↔ (k = key ∧ key ≠ "__proto__") ∨ k ∈ keys o := by
  unfold assign
  by_cases hkey : key = "__proto__"
  · rw [if_pos hkey]; simp [hkey]
  · rw [if_neg hkey, mem_keys_defineProperty]; simp [hkey]

theorem nodup_keys_assign (o : JsObject α) (key : String) (value : α)
    (hnd : (keys o).Nodup) : (keys (assign o key value)).Nodup := by
  unfold assign
  by_cases hkey : key = "__proto__"
  · rw [if_pos hkey]; exact hnd
  · rw [if_neg hkey]; exact nodup_keys_defineProperty o key value hnd

theorem assign_of_plain (o : JsObject α) (key : String) (value : α)
    (hkey : key ≠ "__proto__") (hnew : key ∉ keys o) (hidx : arrayIndex? key = none) :
    assign o key value = o ++ [(key, value)] := by
  unfold assign
  rw [if_neg hkey]
  exact defineProperty_of_plain o key value hnew hidx

end JsObject

theorem contentMap_nil : ContentMap [] :=
  ⟨List.nodup_nil, by simp [JsObject.keys], by intro f ks h; simp [JsObject.get?] at h⟩

theorem contentMap_assign (contents : JsObject (List String)) (file : String)
    (keys : List String) (hcm : ContentMap contents) (hk : keys.Nodup) :
    ContentMap (contents.assign file keys) := by
  refine ⟨JsObject.nodup_keys_assign contents file keys hcm.keys_nodup, ?_, ?_⟩
  · intro h
    rcases (JsObject.mem_keys_assign contents file keys _).mp h with ⟨h1, h2⟩ | h1
    · exact h2 h1.symm
    · exact hcm.no_proto h1
  · intro f ks h
    by_cases hfile : file = "__proto__"
    · rw [hfile, JsObject.assign_proto] at h
      exact hcm.entries_nodup f ks h
    · rw [JsObject.get?_assign contents file keys f hfile] at h
      by_cases hf : f = file
      · rw [if_pos hf] at h
        simp only [Option.some.injEq] at h
        rw [← h]; exact hk
      · rw [if_neg hf] at h
        exact hcm.entries_nodup f ks h

/-! ## Lemmas: loading -/

theorem readFilesLoop_contentMap (rt : Runtime) (fileList : List String) :
    ∀ (contents result : JsObject (List String)), ContentMap contents →
      readFilesLoop rt fileList contents = .ok result → ContentMap result := by
  induction fileList with
  | nil =>
    intro contents result hcm h
    simp only [readFilesLoop, Except.ok.injEq] at h
    rw [← h]; exact hcm
  | cons file rest ih =>
    intro contents result hcm h
    simp only [readFilesLoop] at h
    cases hk : fileKeys rt file with
    | error e => rw [hk] at h; simp at h
    | ok keys =>
      rw [hk] at h
      exact ih _ _ (contentMap_assign contents file keys hcm (fileKeys_nodup rt file keys hk)) h

theorem readFilesLoop_get?_of_mem (rt : Runtime) (fileList : List String) :
    ∀ (contents result : JsObject (List String)),
      readFilesLoop rt fileList contents = .ok result →
      ∀ f, f ∈ fileList → f ≠ "__proto__" →
        ∃ keys, fileKeys rt f = .ok keys ∧ result.get? f = some keys := by
  induction fileList with
  | nil => intro contents result _ f hf; simp at hf
  | cons file rest ih =>
    intro contents result h f hf hproto
    simp only [readFilesLoop] at h
    cases hk : fileKeys rt file with
    | error e => rw [hk] at h; simp at h
    | ok keys =>
      rw [hk] at h
      simp only at h
      by_cases hrest : f ∈ rest
      · exact ih _ _ h f hrest hproto
      · have hfile : f = file := by
          rcases List.mem_cons.mp hf with h1 | h1
          · exact h1
          · exact absurd h1 hrest
        refine ⟨keys, hfile ▸ hk, ?_⟩
        have hkeep : ∀ (l : List String) (c r : JsObject (List String)),
            readFilesLoop rt l c = .ok r → f ∉ l → r.get? f = c.get? f := by
          intro l
          induction l with
          | nil =>
            intro c r hr _
            simp only [readFilesLoop, Except.ok.injEq] at hr
            rw [hr]
          | cons g l ihl =>
            intro c r hr hnot
            simp only [readFilesLoop] at hr
            cases hg : fileKeys rt g with
            | error e => rw [hg] at hr; simp at hr
            | ok kg =>
              rw [hg] at hr
              simp only at hr
              simp only [List.mem_cons, not_or] at hnot
              rw [ihl _ _ hr hnot.2]
              by_cases hgp : g = "__proto__"
              · rw [hgp, JsObject.assign_proto]
              · rw [JsObject.get?_assign c g kg f hgp, if_neg hnot.1]
        rw [hkeep rest _ _ h hrest, JsObject.get?_assign contents file keys f (hfile ▸ hproto),
          if_pos hfile]

theorem readFilesLoop_mem_keys (rt : Runtime) (fileList : List String) :
    ∀ (contents result : JsObject (List String)),
      readFilesLoop rt fileList contents = .ok result →
      ∀ f, f ∈ JsObject.keys result ↔
        (f ∈ fileList ∧ f ≠ "__proto__") ∨ f ∈ JsObject.keys contents := by
  induction fileList with
  | nil =>
    intro contents result h f
    simp only [readFilesLoop, Except.ok.injEq] at h
    simp [h]
  | cons file rest ih =>
    intro contents result h f
    simp only [readFilesLoop] at h
    cases hk : fileKeys rt file with
    | error e => rw [hk] at h; simp at h
    | ok keys =>
      rw [hk] at h
      simp only at h
      rw [ih _ _ h f, JsObject.mem_keys_assign, List.mem_cons]
      constructor
      · rintro (⟨h1, h2⟩ | ⟨h1, h2⟩ | h1)
        · exact Or.inl ⟨Or.inr h1, h2⟩
        · exact Or.inl ⟨Or.inl h1, h1 ▸ h2⟩
        · exact Or.inr h1
      · rintro (⟨h1 | h1, h2⟩ | h1)
        · exact Or.inr (Or.inl ⟨h1, h1 ▸ h2⟩)
        · exact Or.inl ⟨h1, h2⟩
        · exact Or.inr (Or.inr h1)

theorem readFilesLoop_keys_of_plain (rt : Runtime) (fileList : List String) :
    ∀ (contents result : JsObject (List String)),
      readFilesLoop rt fileList contents = .ok result →
      (∀ f ∈ fileList, arrayIndex? f = none ∧ f ≠ "__proto__") →
      JsObject.keys result
        = JsObject.keys contents ++ keepFirstFrom (JsObject.keys contents) fileList := by
  induction fileList with
  | nil =>
    intro contents result h _
    simp only [readFilesLoop, Except.ok.injEq] at h
    simp [h, keepFirstFrom]
  | cons file rest ih =>
    intro contents result h hplain
    simp only [readFilesLoop] at h
    cases hk : fileKeys rt file with
    | error e => rw [hk] at h; simp at h
    | ok keys =>
      rw [hk] at h
      simp only at h
      have hp := hplain file (List.mem_cons_self _ _)
      have hrest := ih _ _ h (fun f hf => hplain f (List.mem_cons_of_mem _ hf))
      simp only [keepFirstFrom]
      by_cases hmem : file ∈ JsObject.keys contents
      · rw [if_pos hmem, hrest]
        have hkeys : JsObject.keys (contents.assign file keys) = JsObject.keys contents := by
          unfold JsObject.assign JsObject.defineProperty
          rw [if_neg hp.2, if_pos ((JsObject.hasOwn_iff contents file).mpr hmem),
            JsObject.keys_replace]
        rw [hkeys]
      · rw [if_neg hmem, hrest, JsObject.assign_of_plain contents file keys hp.2 hmem hp.1]
        have hkeys : JsObject.keys (contents ++ [(file, keys)])
            = JsObject.keys contents ++ [file] := by
          simp [JsObject.keys]
        rw [hkeys, List.append_assoc, List.singleton_append]
        congr 2
        apply keepFirstFrom_congr
        intro x
        simp only [List.mem_append, List.mem_singleton, List.mem_cons]
        tauto

theorem readFilesContent_keys_of_plain (rt : Runtime) (fileList : List String)
    (contents : JsObject (List String)) (h : readFilesContent rt fileList = .ok contents)
    (hplain : ∀ f ∈ fileList, arrayIndex? f = none ∧ f ≠ "__proto__") :
    JsObject.keys contents = keepFirst fileList := by
  have := readFilesLoop_keys_of_plain rt fileList [] contents h hplain
  simpa [JsObject.keys, keepFirst] using this

theorem readFilesContent_contentMap (rt : Runtime) (fileList : List String)
    (contents : JsObject (List String)) (h : readFilesContent rt fileList = .ok contents) :
    ContentMap contents :=
  readFilesLoop_contentMap rt fileList [] contents contentMap_nil h

/-! ## Lemmas: the report -/

theorem compareLoop_get? (contents : JsObject (List String)) (keys : List String)
    (files : List String) :
    ∀ (missingKeys : JsObject (List String)) (a : String),
      (compareLoop contents keys files missingKeys).get? a
        = if a ∈ files ∧ a ≠ "__proto__" ∧ missingLoop contents a keys [] ≠ []
          then some (missingLoop contents a keys []) else missingKeys.get? a := by
  induction files with
  | nil => intro missingKeys a; simp [compareLoop]
  | cons file rest ih =>
    intro missingKeys a
    simp only [compareLoop]
    by_cases hlen : (missingLoop contents file keys []).length > 0
    · rw [if_pos hlen, ih]
      have hne : missingLoop contents file keys [] ≠ [] := by
        intro h; rw [h] at hlen; simp at hlen
      by_cases hrest : a ∈ rest ∧ a ≠ "__proto__" ∧ missingLoop contents a keys [] ≠ []
      · rw [if_pos hrest, if_pos ⟨List.mem_cons_of_mem _ hrest.1, hrest.2⟩]
      · rw [if_neg hrest]
        by_cases hfile : file = "__proto__"
        · rw [hfile, JsObject.assign_proto]
          have : ¬ (a ∈ "__proto__" :: rest ∧ a ≠ "__proto__"
              ∧ missingLoop contents a keys [] ≠ []) := by
            rintro ⟨h1, h2, h3⟩
            rcases List.mem_cons.mp h1 with h | h
            · exact h2 h
            · exact hrest ⟨h, h2, h3⟩
          rw [if_neg this]
        · rw [JsObject.get?_assign _ file _ a hfile]
          by_cases ha : a = file
          · subst ha
            rw [if_pos rfl, if_pos ⟨List.mem_cons_self _ _, hfile, hne⟩]
          · rw [if_neg ha]
            have : ¬ (a ∈ file :: rest ∧ a ≠ "__proto__"
                ∧ missingLoop contents a keys [] ≠ []) := by
              rintro ⟨h1, h2, h3⟩
              rcases List.mem_cons.mp h1 with h | h
              · exact ha h
              · exact hrest ⟨h, h2, h3⟩
            rw [if_neg this]
    · rw [if_neg hlen, ih]
      have hnil : missingLoop contents file keys [] = [] := by
        cases hm : missingLoop contents file keys [] with
        | nil => rfl
        | cons x xs => rw [hm] at hlen; simp at hlen
      by_cases hrest : a ∈ rest ∧ a ≠ "__proto__" ∧ missingLoop contents a keys [] ≠ []
      · rw [if_pos hrest, if_pos ⟨List.mem_cons_of_mem _ hrest.1, hrest.2⟩]
      · rw [if_neg hrest]
        have : ¬ (a ∈ file :: rest ∧ a ≠ "__proto__"
            ∧ missingLoop contents a keys [] ≠ []) := by
          rintro ⟨h1, h2, h3⟩
          rcases List.mem_cons.mp h1 with h | h
          · exact h3 (h ▸ hnil)
          · exact hrest ⟨h, h2, h3⟩
        rw [if_neg this]

theorem compareLoop_keys_nodup (contents : JsObject (List String)) (keys : List String)
    (files : List String) :
    ∀ (missingKeys : JsObject (List String)), (JsObject.keys missingKeys).Nodup →
      (JsObject.keys (compareLoop contents keys files missingKeys)).Nodup := by
  induction files with
  | nil => intro missingKeys h; exact h
  | cons file rest ih =>
    intro missingKeys h
    simp only [compareLoop]
    by_cases hlen : (missingLoop contents file keys []).length > 0
    · rw [if_pos hlen]
      exact ih _ (JsObject.nodup_keys_assign _ _ _ h)
    · rw [if_neg hlen]
      exact ih _ h

theorem compareLoop_of_all_nil (contents : JsObject (List String)) (keys : List String)
    (files : List String) :
    ∀ (missingKeys : JsObject (List String)),
      (∀ f ∈ files, missingLoop contents f keys [] = []) →
      compareLoop contents keys files missingKeys = missingKeys := by
  induction files with
  | nil => intro missingKeys _; rfl
  | cons file rest ih =>
    intro missingKeys h
    simp only [compareLoop]
    rw [h file (List.mem_cons_self _ _)]
    simp only [List.length_nil, gt_iff_lt, Nat.lt_irrefl, if_false]
    exact ih _ (fun f hf => h f (List.mem_cons_of_mem _ hf))

theorem keysOfFile_nodup (contents : JsObject (List String)) (hcm : ContentMap contents)
    (file : String) : (keysOfFile contents file).Nodup := by
  unfold keysOfFile
  cases h : contents.get? file with
  | none => exact List.nodup_nil
  | some keys => exact hcm.entries_nodup file keys h

theorem keysOfFile_of_get? (contents : JsObject (List String)) (file : String)
    (keys : List String) (h : contents.get? file = some keys) :
    keysOfFile contents file = keys := by
  simp [keysOfFile, h]

theorem missingLoop_contentMap (contents : JsObject (List String)) (hcm : ContentMap contents)
    (a : String) :
    missingLoop contents a (JsObject.keys contents) []
      = specMissing (JsObject.keys contents) (keysOfFile contents) a :=
  missingLoop_eq_specMissing contents a _ (fun b _ => keysOfFile_nodup contents hcm b)

/-- The entry of the report for a file: present exactly when the file is in the
content map and its list of missing keys is not empty. -/
theorem compareContents_get? (contents : JsObject (List String)) (hcm : ContentMap contents)
    (a : String) :
    (compareContents contents).get? a
      = if a ∈ JsObject.keys contents
            ∧ specMissing (JsObject.keys contents) (keysOfFile contents) a ≠ []
        then some (specMissing (JsObject.keys contents) (keysOfFile contents) a) else none := by
  unfold compareContents
  simp only
  rw [compareLoop_get?, missingLoop_contentMap contents hcm a]
  by_cases hmem : a ∈ JsObject.keys contents
  · have hproto : a ≠ "__proto__" := fun h => hcm.no_proto (h ▸ hmem)
    by_cases hne : specMissing (JsObject.keys contents) (keysOfFile contents) a ≠ []
    · rw [if_pos ⟨hmem, hproto, hne⟩, if_pos ⟨hmem, hne⟩]
    · rw [if_neg (fun h => hne h.2.2), if_neg (fun h => hne h.2)]
      rfl
  · rw [if_neg (fun h => hmem h.1), if_neg (fun h => hmem h.1)]
    rfl

theorem compareContents_keys_nodup (contents : JsObject (List String)) :
    (JsObject.keys (compareContents contents)).Nodup :=
  compareLoop_keys_nodup contents _ _ [] List.nodup_nil

theorem run_eq (rt : Runtime) (action : Action) (contents : JsObject (List String))
    (h : readFilesContent rt action.fileList = .ok contents) :
    action.run rt = .ok (compareContents contents) := by
  simp [Action.run, h]

theorem specMissing_keepFirst (fileList : List String) (keysOf : String → List String)
    (a : String) :
    specMissing (keepFirst fileList) keysOf a = specMissing fileList keysOf a := by
  unfold specMissing keepFirst
  exact keepFirstFrom_flatten_keepFirstFrom
    (fun b => (keysOf b).filter (fun k => k ∉ keysOf a)) (fun b => b ≠ a) fileList [] []
    (by intro b hb; simp at hb)

/-! ## Lemmas: the input resolver -/

theorem lodashIsEmpty_iff (value : String) : lodashIsEmpty value = true ↔ value = "" := by
  unfold lodashIsEmpty
  rw [beq_iff_eq]
  constructor
  · intro h
    have hd : value.data = [] := List.length_eq_zero.mp h
    exact String.ext hd
  · intro h; subst h; rfl

theorem listedParts_eq (files : String) :
    listedParts files = ((splitNewline files).map trim).filter (fun line => line ≠ "") := by
  unfold listedParts
  apply List.filter_congr
  intro part _
  by_cases h : part = ""
  · subst h
    simp [lodashIsEmpty]
  · have : lodashIsEmpty part = false := by
      cases hl : lodashIsEmpty part with
      | false => rfl
      | true => exact absurd ((lodashIsEmpty_iff part).mp hl) h
    simp [h, this]

theorem indexOf_spec (array : List String) (x : String) :
    (x ∉ array ∧ indexOf array x = -1)
      ∨ (x ∈ array ∧ 0 ≤ indexOf array x ∧ indexOf array x < array.length) := by
  induction array with
  | nil => left; simp [indexOf]
  | cons y ys ih =>
    by_cases hy : y = x
    · right
      simp only [indexOf, hy, if_true, List.mem_cons, true_or, List.length_cons, true_and]
      constructor
      · exact le_refl _
      · push_cast; omega
    · rcases ih with ⟨h1, h2⟩ | ⟨h1, h2, h3⟩
      · left
        refine ⟨?_, ?_⟩
        · simp only [List.mem_cons, not_or]
          exact ⟨fun h => hy h.symm, h1⟩
        · simp [indexOf, hy, h2]
      · right
        refine ⟨List.mem_cons_of_mem _ h1, ?_⟩
        have hneg : ¬ indexOf ys x < 0 := by omega
        simp only [indexOf, hy, if_false, hneg, List.length_cons]
        push_cast
        omega

theorem indexOf_append (pre ys : List String) (x : String) :
    indexOf (pre ++ ys) x
      = if x ∈ pre then indexOf pre x
        else if indexOf ys x < 0 then -1 else (pre.length : Int) + indexOf ys x := by
  induction pre with
  | nil =>
    simp only [List.nil_append, List.not_mem_nil, if_false, List.length_nil, Nat.cast_zero,
      zero_add]
    rcases indexOf_spec ys x with ⟨_, h2⟩ | ⟨_, h2, _⟩
    · simp [h2]
    · have : ¬ indexOf ys x < 0 := by omega
      simp [this]
  | cons y pre ih =>
    by_cases hy : y = x
    · simp [indexOf, hy]
    · have hxy : ¬ x = y := fun h => hy h.symm
      have hstep : ∀ l : List String,
          indexOf (y :: l) x = if indexOf l x < 0 then -1 else indexOf l x + 1 := by
        intro l; simp [indexOf, hy]
      have hcons : (y :: pre) ++ ys = y :: (pre ++ ys) := rfl
      rw [hcons, hstep (pre ++ ys), hstep pre, ih]
      have hmemc : x ∈ y :: pre ↔ x ∈ pre := by simp [hxy]
      by_cases hmem : x ∈ pre
      · rw [if_pos hmem, if_pos (hmemc.mpr hmem)]
      · rw [if_neg hmem, if_neg (fun h => hmem (hmemc.mp h))]
        rcases indexOf_spec ys x with ⟨_, h2⟩ | ⟨_, h2, _⟩
        · simp [h2]
        · have hneg : ¬ indexOf ys x < 0 := by omega
          have h1 : ¬ ((pre.length : Int) + indexOf ys x < 0) := by omega
          rw [if_neg hneg, if_neg h1]
          simp only [List.length_cons]
          push_cast
          omega

theorem indexOf_eq_length_iff (pre rest : List String) (x : String) :
    indexOf (pre ++ x :: rest) x = (pre.length : Int) ↔ x ∉ pre := by
  rw [indexOf_append]
  by_cases hmem : x ∈ pre
  · simp only [hmem, if_true, not_true_eq_false, iff_false]
    rcases indexOf_spec pre x with ⟨h1, _⟩ | ⟨_, _, h3⟩
    · exact absurd hmem h1
    · omega
  · simp [hmem, indexOf]

theorem filterFrom_indexOf (array : List String) (xs : List String) :
    ∀ (pre : List String), array = pre ++ xs →
      filterFrom (fun x index => indexOf array x == (index : Int)) pre.length xs
        = keepFirstFrom pre xs := by
  induction xs with
  | nil => intro pre _; rfl
  | cons x rest ih =>
    intro pre harr
    have hnext := ih (pre ++ [x]) (by rw [harr]; simp)
    rw [List.length_append, List.length_singleton] at hnext
    simp only [filterFrom, keepFirstFrom]
    rw [hnext]
    by_cases hmem : x ∈ pre
    · have hno : (indexOf array x == (pre.length : Int)) = false := by
        rw [beq_eq_false_iff_ne, harr]
        exact fun h => ((indexOf_eq_length_iff pre rest x).mp h) hmem
      simp only [hno, if_pos hmem, Bool.false_eq_true, if_false]
      apply keepFirstFrom_congr
      intro y
      simp only [List.mem_append, List.mem_singleton]
      constructor
      · rintro (h | h)
        · exact h
        · exact h ▸ hmem
      · exact fun h => Or.inl h
    · have hyes : (indexOf array x == (pre.length : Int)) = true := by
        rw [beq_iff_eq, harr]
        exact (indexOf_eq_length_iff pre rest x).mpr hmem
      simp only [hyes, if_neg hmem, if_true]
      congr 1
      apply keepFirstFrom_congr
      intro y
      simp only [List.mem_append, List.mem_singleton, List.mem_cons]
      tauto

theorem arrayFilter_indexOf (array : List String) :
    arrayFilter (fun part index array => indexOf array part == (index : Int)) array
      = keepFirst array :=
  filterFrom_indexOf array array [] rfl

theorem find?_keepFirstFrom (p : String → Bool) (xs : List String) :
    ∀ (s : List String), (∀ x ∈ s, p x = false) →
      (keepFirstFrom s xs).find? p = xs.find? p := by
  induction xs with
  | nil => intro s _; rfl
  | cons x rest ih =>
    intro s hs
    simp only [keepFirstFrom]
    by_cases hmem : x ∈ s
    · rw [if_pos hmem, ih s hs, List.find?_cons, hs x hmem]
    · rw [if_neg hmem]
      cases hp : p x with
      | true => simp [List.find?_cons, hp]
      | false =>
        rw [List.find?_cons, hp, List.find?_cons, hp]
        apply ih
        intro y hy
        rcases List.mem_cons.mp hy with h | h
        · rw [h]; exact hp
        · exact hs y h

theorem mapThrowing_checkExists (rt : Runtime) (parts : List String) :
    mapThrowing (checkExists rt) parts
      = match parts.find? (fun p => !rt.existsSync p) with
        | some p => .error (.NotFoundPath ("File " ++ p ++ " not found."))
        | none => .ok parts := by
  induction parts with
  | nil => rfl
  | cons x rest ih =>
    simp only [mapThrowing, checkExists, List.find?_cons]
    cases hx : rt.existsSync x with
    | false => simp
    | true =>
      simp only [Bool.not_true, Bool.false_eq_true, if_false]
      have ih' := ih
      simp only [checkExists] at ih'
      rw [ih']
      cases List.find? (fun p => !rt.existsSync p) rest <;> rfl

/-- The outcome of `#validateFiles()` in closed form. -/
theorem validateFiles_eq (rt : Runtime) (files : String) :
    validateFiles rt files
      = match (listedParts files).find? (fun p => !rt.existsSync p) with
        | some p => .error (.NotFoundPath ("File " ++ p ++ " not found."))
        | none =>
          if (specExplicitFiles files).length < 2 then
            .error (.NotEnoughFiles "You need at least 2 files to be compared.")
          else .ok (specExplicitFiles files) := by
  unfold validateFiles
  have hspec : specExplicitFiles files = keepFirst (listedParts files) := by
    rw [listedParts_eq]; rfl
  rw [arrayFilter_indexOf, mapThrowing_checkExists, hspec]
  have hfind : (keepFirst (listedParts files)).find? (fun p => !rt.existsSync p)
      = (listedParts files).find? (fun p => !rt.existsSync p) :=
    find?_keepFirstFrom _ _ [] (by intro x hx; simp at hx)
  rw [hfind]
  cases (listedParts files).find? (fun p => !rt.existsSync p) <;> rfl

theorem constructor_getFileList (rt : Runtime) (files searchPath searchPattern : String) :
    (Action.constructor rt files searchPath searchPattern).map Action.getFileList
      = validateInputs rt files searchPath
          (if !lodashIsEmpty searchPattern then searchPattern else defaultRegExp) := by
  unfold Action.constructor
  simp only
  cases validateInputs rt files searchPath
      (if !lodashIsEmpty searchPattern then searchPattern else defaultRegExp) <;> rfl

/-! ## The diff engine: `run` -/

/-- C1 (completeness): for every content map loaded by `run` (its key lists are
duplicate-free), every file `a` of the map and every key `k`, if `k` is not among
the keys of `a` and is among the keys of another file `b` of the map, then the
report returned by `run` has an entry for `a` and `k` occurs in it exactly once,
however many sibling files contain `k`. -/
theorem run_complete (rt : Runtime) (action : Action)
    (contents report : JsObject (List String))
    (hload : readFilesContent rt action.fileList = .ok contents)
    (hrun : action.run rt = .ok report)
    (a b k : String) (keysA keysB : List String)
    (ha : contents.get? a = some keysA) (hb : contents.get? b = some keysB) (hab : b ≠ a)
    (hka : k ∉ keysA) (hkb : k ∈ keysB) :
    ∃ missing, report.get? a = some missing ∧ missing.count k = 1 := by
  have hcm := readFilesContent_contentMap rt action.fileList contents hload
  rw [run_eq rt action contents hload, Except.ok.injEq] at hrun
  subst hrun
  have hmemA : a ∈ JsObject.keys contents := (JsObject.get?_isSome_iff contents a).mp ⟨keysA, ha⟩
  have hmemB : b ∈ JsObject.keys contents := (JsObject.get?_isSome_iff contents b).mp ⟨keysB, hb⟩
  have hk : k ∈ specMissing (JsObject.keys contents) (keysOfFile contents) a := by
    rw [mem_specMissing, keysOfFile_of_get? contents a keysA ha]
    exact ⟨hka, b, hmemB, hab, by rw [keysOfFile_of_get? contents b keysB hb]; exact hkb⟩
  have hne : specMissing (JsObject.keys contents) (keysOfFile contents) a ≠ [] := by
    intro h; rw [h] at hk; simp at hk
  refine ⟨specMissing (JsObject.keys contents) (keysOfFile contents) a, ?_, ?_⟩
  · rw [compareContents_get? contents hcm a, if_pos ⟨hmemA, hne⟩]
  · exact List.count_eq_one_of_mem (specMissing_nodup _ _ _) hk

/-- Witness of C1 on scenario 6: `de.json` alone lacks `X`, which `en.json` and
`fr.json` both have. -/
theorem run_complete_witness :
    readFilesContent demo localesAction.fileList = .ok localesContents
      ∧ localesAction.run demo = .ok localesReport
      ∧ ∃ missing, localesReport.get? "locales/de.json" = some missing
          ∧ missing.count "X" = 1 :=
  ⟨rfl, rfl,
    run_complete demo localesAction localesContents localesReport rfl rfl
      "locales/de.json" "locales/fr.json" "X" ["hello", "bye"] ["hello", "X"] rfl rfl
      (by decide) (by decide) (by decide)⟩

/-- C2 (soundness): every key `k` listed in the report under a file `a` is
absent from the key list of `a` and present in the key list of at least one
other file of the content map; hence `k` is not a key that `a` possesses, not a
key present in all files, and not a key present in no file. -/
theorem run_sound (rt : Runtime) (action : Action)
    (contents report : JsObject (List String))
    (hload : readFilesContent rt action.fileList = .ok contents)
    (hrun : action.run rt = .ok report)
    (a k : String) (missing : List String)
    (hrep : report.get? a = some missing) (hk : k ∈ missing) :
    (∃ keysA, contents.get? a = some keysA ∧ k ∉ keysA ∧
        ∃ b keysB, b ≠ a ∧ contents.get? b = some keysB ∧ k ∈ keysB)
      ∧ (∀ keysA, contents.get? a = some keysA → k ∉ keysA)
      ∧ ¬ (∀ f keys, contents.get? f = some keys → k ∈ keys)
      ∧ ¬ (∀ f keys, contents.get? f = some keys → k ∉ keys) := by
  have hcm := readFilesContent_contentMap rt action.fileList contents hload
  rw [run_eq rt action contents hload, Except.ok.injEq] at hrun
  subst hrun
  rw [compareContents_get? contents hcm a] at hrep
  by_cases hc : a ∈ JsObject.keys contents
      ∧ specMissing (JsObject.keys contents) (keysOfFile contents) a ≠ []
  · rw [if_pos hc, Option.some.injEq] at hrep
    rw [← hrep, mem_specMissing] at hk
    obtain ⟨hka, b, hb, hba, hkb⟩ := hk
    obtain ⟨keysA, hA⟩ := (JsObject.get?_isSome_iff contents a).mpr hc.1
    obtain ⟨keysB, hB⟩ := (JsObject.get?_isSome_iff contents b).mpr hb
    rw [keysOfFile_of_get? contents a keysA hA] at hka
    rw [keysOfFile_of_get? contents b keysB hB] at hkb
    refine ⟨⟨keysA, hA, hka, b, keysB, hba, hB, hkb⟩, ?_, ?_, ?_⟩
    · intro keysA' hA'
      rw [hA, Option.some.injEq] at hA'
      exact hA' ▸ hka
    · intro hall
      exact hka (hall a keysA hA)
    · intro hnone
      exact hnone b keysB hB hkb
  · rw [if_neg hc] at hrep
    exact absurd hrep (by simp)

/-- Witness of C2: `bye`, listed under `fr.json`, is a key of `en.json` and not
of `fr.json`. -/
theorem run_sound_witness :
    readFilesContent demo localesAction.fileList = .ok localesContents
      ∧ localesAction.run demo = .ok localesReport
      ∧ localesReport.get? "locales/fr.json" = some ["bye"]
      ∧ ((∃ keysA, localesContents.get? "locales/fr.json" = some keysA ∧ "bye" ∉ keysA ∧
            ∃ b keysB, b ≠ "locales/fr.json" ∧ localesContents.get? b = some keysB
              ∧ "bye" ∈ keysB)
        ∧ (∀ keysA, localesContents.get? "locales/fr.json" = some keysA → "bye" ∉ keysA)
        ∧ ¬ (∀ f keys, localesContents.get? f = some keys → "bye" ∈ keys)
        ∧ ¬ (∀ f keys, localesContents.get? f = some keys → "bye" ∉ keys)) :=
  ⟨rfl, rfl, rfl,
    run_sound demo localesAction localesContents localesReport rfl rfl
      "locales/fr.json" "bye" ["bye"] rfl (by decide)⟩

/-- Counterexample to C3 as stated: explicit files `b.json`, `2`, `1` resolve to
that list, but the object built by `#readFilesContent()` enumerates the
array-index paths first, so `run` scans `1` before `2` and reports
`["y", "x"]` under `b.json`, while scanning in resolved-list order gives
`["x", "y"]`. -/
theorem run_order_counterexample :
    (Action.constructor demo "b.json\n2\n1" "" "").map Action.getFileList
        = .ok ["b.json", "2", "1"]
      ∧ readFilesContent demo numberedAction.fileList = .ok numberedContents
      ∧ numberedAction.run demo = .ok numberedReport
      ∧ numberedReport.get? "b.json" = some ["y", "x"]
      ∧ specMissing numberedAction.fileList (keysOfFile numberedContents) "b.json"
          = ["x", "y"]
      ∧ numberedReport.get? "b.json"
          ≠ some (specMissing numberedAction.fileList (keysOfFile numberedContents) "b.json") :=
  ⟨rfl, rfl, rfl, rfl, rfl, by decide⟩

/-- C3 (order of missing keys), amended: when no path of the resolved list is
an array-index string or `__proto__`, the entry that `run` returns for a file
`a` of the list is the reference list of the specification (other files in
resolved-list order, their keys in their own order that are not keys of `a`,
first occurrences only); the entry is absent when that list is empty. -/
theorem run_order (rt : Runtime) (action : Action)
    (contents report : JsObject (List String))
    (hload : readFilesContent rt action.fileList = .ok contents)
    (hrun : action.run rt = .ok report)
    (hplain : ∀ f ∈ action.fileList, arrayIndex? f = none ∧ f ≠ "__proto__")
    (a : String) (ha : a ∈ action.fileList) :
    report.get? a
      = if specMissing action.fileList (keysOfFile contents) a = [] then none
        else some (specMissing action.fileList (keysOfFile contents) a) := by
  have hcm := readFilesContent_contentMap rt action.fileList contents hload
  have hkeys := readFilesContent_keys_of_plain rt action.fileList contents hload hplain
  rw [run_eq rt action contents hload, Except.ok.injEq] at hrun
  subst hrun
  have hmem : a ∈ JsObject.keys contents := by
    rw [hkeys, mem_keepFirst]; exact ha
  rw [compareContents_get? contents hcm a, hkeys, specMissing_keepFirst]
  by_cases hnil : specMissing action.fileList (keysOfFile contents) a = []
  · rw [if_pos hnil, if_neg (fun h => h.2 hnil)]
  · rw [if_neg hnil, if_pos ⟨hkeys ▸ hmem, hnil⟩]

/-- Witness of C3 (amended) on scenario 4: the two files of the test-suite give
`file1: [missing2]` and `file2: [missing1]`. -/
theorem run_order_witness :
    (Action.constructor fixture "" "/some/search/folder/" "json$").map Action.getFileList
        = .ok fixtureAction.fileList
      ∧ fixtureAction.run fixture
        = .ok [("/some/search/folder/file1.json", ["missing2"]),
            ("/some/search/folder/file2.ejson", ["missing1"])]
      ∧ JsObject.get? fixtureReport "/some/search/folder/file1.json"
        = (if specMissing fixtureAction.fileList (keysOfFile fixtureContents)
              "/some/search/folder/file1.json" = [] then none
          else some (specMissing fixtureAction.fileList (keysOfFile fixtureContents)
              "/some/search/folder/file1.json"))
      ∧ specMissing fixtureAction.fileList (keysOfFile fixtureContents)
          "/some/search/folder/file1.json" = ["missing2"] :=
  ⟨rfl, rfl,
    run_order fixture fixtureAction fixtureContents fixtureReport rfl rfl (by decide)
      "/some/search/folder/file1.json" (by decide),
    rfl⟩

/-- C4 (omission of clean files): a file has an entry in the report returned by
`run` if and only if it is a file of the content map that lacks at least one key
that some other file of the map has; and no entry of the report is an empty
list. -/
theorem run_omits_clean_files (rt : Runtime) (action : Action)
    (contents report : JsObject (List String))
    (hload : readFilesContent rt action.fileList = .ok contents)
    (hrun : action.run rt = .ok report) :
    (∀ a, a ∈ JsObject.keys report ↔
        ∃ keysA, contents.get? a = some keysA ∧
          ∃ b keysB k, b ≠ a ∧ contents.get? b = some keysB ∧ k ∈ keysB ∧ k ∉ keysA)
      ∧ (∀ entry ∈ report, entry.2 ≠ []) := by
  have hcm := readFilesContent_contentMap rt action.fileList contents hload
  rw [run_eq rt action contents hload, Except.ok.injEq] at hrun
  subst hrun
  constructor
  · intro a
    rw [← JsObject.get?_isSome_iff, compareContents_get? contents hcm a]
    constructor
    · rintro ⟨v, hv⟩
      by_cases hc : a ∈ JsObject.keys contents
          ∧ specMissing (JsObject.keys contents) (keysOfFile contents) a ≠ []
      · obtain ⟨keysA, hA⟩ := (JsObject.get?_isSome_iff contents a).mpr hc.1
        obtain ⟨k, hk⟩ := List.exists_mem_of_ne_nil _ hc.2
        rw [mem_specMissing] at hk
        obtain ⟨hka, b, hb, hba, hkb⟩ := hk
        obtain ⟨keysB, hB⟩ := (JsObject.get?_isSome_iff contents b).mpr hb
        rw [keysOfFile_of_get? contents a keysA hA] at hka
        rw [keysOfFile_of_get? contents b keysB hB] at hkb
        exact ⟨keysA, hA, b, keysB, k, hba, hB, hkb, hka⟩
      · rw [if_neg hc] at hv
        exact absurd hv (by simp)
    · rintro ⟨keysA, hA, b, keysB, k, hba, hB, hkb, hka⟩
      have hmemA : a ∈ JsObject.keys contents :=
        (JsObject.get?_isSome_iff contents a).mp ⟨keysA, hA⟩
      have hmemB : b ∈ JsObject.keys contents :=
        (JsObject.get?_isSome_iff contents b).mp ⟨keysB, hB⟩
      have hk : k ∈ specMissing (JsObject.keys contents) (keysOfFile contents) a := by
        rw [mem_specMissing, keysOfFile_of_get? contents a keysA hA]
        exact ⟨hka, b, hmemB, hba, by rw [keysOfFile_of_get? contents b keysB hB]; exact hkb⟩
      have hne : specMissing (JsObject.keys contents) (keysOfFile contents) a ≠ [] := by
        intro h; rw [h] at hk; simp at hk
      rw [if_pos ⟨hmemA, hne⟩]
      exact ⟨_, rfl⟩
  · rintro ⟨f, l⟩ hmem hnil
    have hget := JsObject.get?_of_mem (compareContents contents)
      (compareContents_keys_nodup contents) f l hmem
    rw [compareContents_get? contents hcm f] at hget
    by_cases hc : f ∈ JsObject.keys contents
        ∧ specMissing (JsObject.keys contents) (keysOfFile contents) f ≠ []
    · rw [if_pos hc, Option.some.injEq] at hget
      exact hc.2 (hget.trans hnil)
    · rw [if_neg hc] at hget
      exact absurd hget (by simp)

/-- Witness of C4 on the locale files: `en.json` lacks nothing and is absent
from the report, `fr.json` lacks `bye` and is present. -/
theorem run_omits_clean_files_witness :
    readFilesContent demo localesAction.fileList = .ok localesContents
      ∧ localesAction.run demo = .ok localesReport
      ∧ JsObject.keys localesReport = ["locales/fr.json", "locales/de.json"]
      ∧ (∀ a, a ∈ JsObject.keys localesReport ↔
          ∃ keysA, localesContents.get? a = some keysA ∧
            ∃ b keysB k, b ≠ a ∧ localesContents.get? b = some keysB ∧ k ∈ keysB
              ∧ k ∉ keysA)
      ∧ (∀ entry ∈ localesReport, entry.2 ≠ []) :=
  ⟨rfl, rfl, rfl,
    run_omits_clean_files demo localesAction localesContents localesReport rfl rfl⟩

/-- C5 (empty report): when all files of the content map have the same set of
keys, in whatever order, `run` returns the empty object. -/
theorem run_empty_report (rt : Runtime) (action : Action)
    (contents report : JsObject (List String))
    (hload : readFilesContent rt action.fileList = .ok contents)
    (hrun : action.run rt = .ok report)
    (hsame : ∀ a b keysA keysB, contents.get? a = some keysA → contents.get? b = some keysB →
      ∀ k, k ∈ keysA ↔ k ∈ keysB) :
    report = [] := by
  have hcm := readFilesContent_contentMap rt action.fileList contents hload
  rw [run_eq rt action contents hload, Except.ok.injEq] at hrun
  subst hrun
  unfold compareContents
  apply compareLoop_of_all_nil
  intro f hf
  rw [missingLoop_contentMap contents hcm f]
  apply List.eq_nil_iff_forall_not_mem.mpr
  intro k hk
  rw [mem_specMissing] at hk
  obtain ⟨hka, b, hb, _, hkb⟩ := hk
  obtain ⟨keysA, hA⟩ := (JsObject.get?_isSome_iff contents f).mpr hf
  obtain ⟨keysB, hB⟩ := (JsObject.get?_isSome_iff contents b).mpr hb
  rw [keysOfFile_of_get? contents f keysA hA] at hka
  rw [keysOfFile_of_get? contents b keysB hB] at hkb
  exact hka ((hsame b f keysB keysA hB hA k).mp hkb)

theorem sameContents_same_keys (a b : String) (keysA keysB : List String)
    (ha : JsObject.get? sameContents a = some keysA)
    (hb : JsObject.get? sameContents b = some keysB) (k : String) :
    k ∈ keysA ↔ k ∈ keysB := by
  have hval : ∀ (f : String) (ks : List String), JsObject.get? sameContents f = some ks →
      (k ∈ ks ↔ (k = "a" ∨ k = "b")) := by
    intro f ks h
    simp only [sameContents, JsObject.get?] at h
    split at h
    · simp only [Option.some.injEq] at h
      subst h; simp
    · split at h
      · simp only [Option.some.injEq] at h
        subst h; simp [or_comm]
      · simp at h
  rw [hval a keysA ha, hval b keysB hb]

/-- Witness of C5: `same1.json` has keys `a, b` and `same2.json` has `b, a`. -/
theorem run_empty_report_witness :
    readFilesContent demo sameAction.fileList = .ok sameContents
      ∧ sameAction.run demo = .ok (compareContents sameContents)
      ∧ compareContents sameContents = [] :=
  ⟨rfl, rfl,
    run_empty_report demo sameAction sameContents (compareContents sameContents) rfl rfl
      sameContents_same_keys⟩

/-! ## The input resolver: the constructor -/

theorem validateInputs_explicit (rt : Runtime) (files searchPath searchPattern : String)
    (hfiles : files ≠ "") :
    validateInputs rt files searchPath searchPattern = validateFiles rt files := by
  unfold validateInputs
  have : lodashIsEmpty files = false := by
    cases h : lodashIsEmpty files with
    | false => rfl
    | true => exact absurd ((lodashIsEmpty_iff files).mp h) hfiles
  simp [this]

theorem validateInputs_search (rt : Runtime) (searchPath searchPattern : String) :
    validateInputs rt "" searchPath searchPattern
      = validateSearchPath rt searchPath searchPattern := by
  unfold validateInputs
  have : lodashIsEmpty "" = true := rfl
  simp [this]

theorem mem_listedParts_iff (files : String) (p : String) :
    p ∈ listedParts files ↔ p ∈ specExplicitFiles files := by
  have hspec : specExplicitFiles files = keepFirst (listedParts files) := by
    rw [listedParts_eq]; rfl
  rw [hspec, mem_keepFirst]

/-- C6 (explicit-file resolution): for every non-empty `files` text in which
every listed path exists and at least two distinct paths are listed,
`getFileList()` is the list of lines of `files` split on newline, each trimmed,
blank lines discarded, duplicates removed keeping the first occurrence. -/
theorem getFileList_explicit (rt : Runtime) (files searchPath searchPattern : String)
    (hfiles : files ≠ "")
    (hexists : ∀ p ∈ specExplicitFiles files, rt.existsSync p = true)
    (htwo : 2 ≤ (specExplicitFiles files).length) :
    (Action.constructor rt files searchPath searchPattern).map Action.getFileList
      = .ok (specExplicitFiles files) := by
  rw [constructor_getFileList, validateInputs_explicit rt files searchPath _ hfiles,
    validateFiles_eq]
  have hfind : (listedParts files).find? (fun p => !rt.existsSync p) = none := by
    rw [List.find?_eq_none]
    intro p hp
    simp [hexists p ((mem_listedParts_iff files p).mp hp)]
  rw [hfind]
  simp only
  rw [if_neg (by omega)]

/-- Witness of C6: three lines with padding, a blank line and a repeated path. -/
theorem getFileList_explicit_witness :
    "same1.json\n  same2.json \n\nsame1.json" ≠ ""
      ∧ specExplicitFiles "same1.json\n  same2.json \n\nsame1.json"
          = ["same1.json", "same2.json"]
      ∧ (Action.constructor demo "same1.json\n  same2.json \n\nsame1.json" "locales"
            "json$").map Action.getFileList
          = .ok (specExplicitFiles "same1.json\n  same2.json \n\nsame1.json") :=
  ⟨by decide, rfl,
    getFileList_explicit demo "same1.json\n  same2.json \n\nsame1.json" "locales" "json$"
      (by decide) (by decide) (by decide)⟩

/-- C7 (NotFoundPath on the first missing path): in explicit-file mode the
constructor fails with `NotFoundPath` if and only if some trimmed, non-blank
listed path does not exist, and then the message is `File <p> not found.` for
the first such path in scan order, whether or not two paths are listed. -/
theorem constructor_notFoundPath (rt : Runtime) (files searchPath searchPattern : String)
    (hfiles : files ≠ "") :
    ((∃ message, Action.constructor rt files searchPath searchPattern
          = .error (.NotFoundPath message))
        ↔ ∃ p ∈ listedParts files, rt.existsSync p = false)
      ∧ (∀ p, (listedParts files).find? (fun p => !rt.existsSync p) = some p →
          Action.constructor rt files searchPath searchPattern
            = .error (.NotFoundPath ("File " ++ p ++ " not found."))) := by
  have hval : validateInputs rt files searchPath
      (if !lodashIsEmpty searchPattern then searchPattern else defaultRegExp)
        = validateFiles rt files := validateInputs_explicit rt files searchPath _ hfiles
  have hcons : ∀ e, Action.constructor rt files searchPath searchPattern = .error e
      ↔ validateFiles rt files = .error e := by
    intro e
    unfold Action.constructor
    simp only
    rw [hval]
    cases validateFiles rt files <;> simp
  constructor
  · constructor
    · rintro ⟨message, h⟩
      rw [hcons, validateFiles_eq] at h
      cases hfind : (listedParts files).find? (fun p => !rt.existsSync p) with
      | none =>
        rw [hfind] at h
        simp only at h
        split at h <;> simp at h
      | some p =>
        have hp := List.find?_some hfind
        exact ⟨p, List.mem_of_find?_eq_some hfind, by simpa using hp⟩
    · rintro ⟨p, hp, hex⟩
      cases hfind : (listedParts files).find? (fun p => !rt.existsSync p) with
      | none =>
        rw [List.find?_eq_none] at hfind
        have := hfind p hp
        simp [hex] at this
      | some q =>
        refine ⟨"File " ++ q ++ " not found.", ?_⟩
        rw [hcons, validateFiles_eq, hfind]
  · intro p hfind
    rw [hcons, validateFiles_eq, hfind]

/-- Witness of C7 on scenario 2 and on a single missing path: `a.json` does not
exist in `demo`. -/
theorem constructor_notFoundPath_witness :
    "same1.json\na.json" ≠ ""
      ∧ Action.constructor demo "same1.json\na.json" "" ""
          = .error (.NotFoundPath ("File " ++ "a.json" ++ " not found."))
      ∧ Action.constructor demo "a.json" "" ""
          = .error (.NotFoundPath ("File " ++ "a.json" ++ " not found.")) :=
  ⟨by decide,
    (constructor_notFoundPath demo "same1.json\na.json" "" "" (by decide)).2 "a.json" rfl,
    (constructor_notFoundPath demo "a.json" "" "" (by decide)).2 "a.json" rfl⟩

theorem constructor_error_iff (rt : Runtime) (files searchPath searchPattern : String)
    (e : ActionError) :
    Action.constructor rt files searchPath searchPattern = .error e
      ↔ validateInputs rt files searchPath
          (if !lodashIsEmpty searchPattern then searchPattern else defaultRegExp)
        = .error e := by
  unfold Action.constructor
  simp only
  cases validateInputs rt files searchPath
      (if !lodashIsEmpty searchPattern then searchPattern else defaultRegExp) <;> simp

theorem validateSearchPath_of_directory (rt : Runtime) (searchPath searchPattern : String)
    (regexp : String → Bool) (entries : List Dirent)
    (hpath : searchPath ≠ "") (hexists : rt.existsSync searchPath = true)
    (hdir : rt.lstatIsDirectory searchPath = true)
    (hre : rt.newRegExp searchPattern = .ok regexp)
    (hls : rt.readdirSync searchPath = .ok entries) :
    validateSearchPath rt searchPath searchPattern
      = if ((searchCandidates regexp entries).map
            (fun file => normalizePath rt searchPath ++ "/" ++ file.name)).length < 2 then
          .error (.NotEnoughFiles "You need at least 2 files to be compared.")
        else .ok ((searchCandidates regexp entries).map
            (fun file => normalizePath rt searchPath ++ "/" ++ file.name)) := by
  have hempty : lodashIsEmpty searchPath = false := by
    cases h : lodashIsEmpty searchPath with
    | false => rfl
    | true => exact absurd ((lodashIsEmpty_iff searchPath).mp h) hpath
  have hfilter : entries.filter (fun file => if file.isDirectory then false else regexp file.name)
      = searchCandidates regexp entries := by
    unfold searchCandidates
    apply List.filter_congr
    intro file _
    cases file.isDirectory <;> simp
  unfold validateSearchPath getFilesFromPath
  simp only [hempty, hexists, hdir, hre, hls, liftRuntime, hfilter, Bool.not_true,
    Bool.or_self, Bool.false_eq_true, if_false]

/-- C8 (NotEnoughFiles in either mode): when every listed path exists (explicit
files), respectively when the search path is an existing directory that can be
listed with a valid pattern, the constructor fails with `NotEnoughFiles` if and
only if fewer than two candidates remain: after trimming, blank removal and
deduplication of the listed paths, or after directory exclusion and pattern
filtering of the directory entries. -/
theorem constructor_notEnoughFiles (rt : Runtime) (files searchPath searchPattern : String) :
    (files ≠ "" → (∀ p ∈ listedParts files, rt.existsSync p = true) →
        (Action.constructor rt files searchPath searchPattern
            = .error (.NotEnoughFiles "You need at least 2 files to be compared.")
          ↔ (specExplicitFiles files).length < 2))
      ∧ (files = "" → searchPath ≠ "" → rt.existsSync searchPath = true →
          rt.lstatIsDirectory searchPath = true →
          ∀ regexp entries,
            rt.newRegExp (if !lodashIsEmpty searchPattern then searchPattern
              else defaultRegExp) = .ok regexp →
            rt.readdirSync searchPath = .ok entries →
            (Action.constructor rt files searchPath searchPattern
                = .error (.NotEnoughFiles "You need at least 2 files to be compared.")
              ↔ (searchCandidates regexp entries).length < 2)) := by
  constructor
  · intro hfiles hexists
    rw [constructor_error_iff, validateInputs_explicit rt files searchPath _ hfiles,
      validateFiles_eq]
    have hfind : (listedParts files).find? (fun p => !rt.existsSync p) = none := by
      rw [List.find?_eq_none]
      intro p hp
      simp [hexists p hp]
    rw [hfind]
    simp only
    by_cases hlen : (specExplicitFiles files).length < 2
    · simp [hlen]
    · simp [hlen]
  · intro hfiles hpath hexists hdir regexp entries hre hls
    subst hfiles
    rw [constructor_error_iff, validateInputs_search,
      validateSearchPath_of_directory rt searchPath _ regexp entries hpath hexists hdir hre hls]
    rw [List.length_map]
    by_cases hlen : (searchCandidates regexp entries).length < 2
    · simp [hlen]
    · simp [hlen]

/-- Witness of C8: one existing path listed twice fails, and so does the
directory of the test-suite under the default pattern, where only `file1.json`
survives. -/
theorem constructor_notEnoughFiles_witness :
    Action.constructor demo "same1.json\nsame1.json" "" ""
        = .error (.NotEnoughFiles "You need at least 2 files to be compared.")
      ∧ Action.constructor fixture "" "/some/search/folder/" ""
        = .error (.NotEnoughFiles "You need at least 2 files to be compared.") :=
  ⟨((constructor_notEnoughFiles demo "same1.json\nsame1.json" "" "").1 (by decide)
      (by decide)).mpr (by decide),
    ((constructor_notEnoughFiles fixture "" "/some/search/folder/" "").2 rfl (by decide) rfl
      rfl (fun name => endsWith name ".json")
      [⟨"file1.json", false⟩, ⟨"file2.ejson", false⟩, ⟨"folder", true⟩, ⟨"file3.txt", false⟩]
      rfl rfl).mpr (by decide)⟩

theorem getFilesFromPath_ok (rt : Runtime) (searchPath searchPattern : String)
    (fileList : List String) (h : getFilesFromPath rt searchPath searchPattern = .ok fileList) :
    2 ≤ fileList.length ∧ ∃ (regexp : String → Bool) (entries : List Dirent),
      rt.readdirSync searchPath = .ok entries ∧
      fileList = (entries.filter
          (fun file => if file.isDirectory then false else regexp file.name)).map
        (fun file => normalizePath rt searchPath ++ "/" ++ file.name) := by
  unfold getFilesFromPath at h
  cases hre : rt.newRegExp searchPattern with
  | error m => rw [hre] at h; simp [liftRuntime] at h
  | ok regexp =>
    cases hls : rt.readdirSync searchPath with
    | error m => rw [hre, hls] at h; simp [liftRuntime] at h
    | ok entries =>
      rw [hre, hls] at h
      simp only [liftRuntime] at h
      split at h
      · simp at h
      · rename_i hlen
        simp only [Except.ok.injEq] at h
        subst h
        exact ⟨by omega, regexp, entries, rfl, rfl⟩

theorem validateSearchPath_ok (rt : Runtime) (searchPath searchPattern : String)
    (fileList : List String)
    (h : validateSearchPath rt searchPath searchPattern = .ok fileList) :
    getFilesFromPath rt searchPath searchPattern = .ok fileList := by
  unfold validateSearchPath at h
  split at h
  · simp at h
  · split at h
    · simp at h
    · exact h

theorem validateFiles_ok (rt : Runtime) (files : String) (fileList : List String)
    (h : validateFiles rt files = .ok fileList) :
    2 ≤ fileList.length ∧ fileList = specExplicitFiles files := by
  rw [validateFiles_eq] at h
  cases hfind : (listedParts files).find? (fun p => !rt.existsSync p) with
  | some p => rw [hfind] at h; simp at h
  | none =>
    rw [hfind] at h
    simp only at h
    split at h
    · simp at h
    · rename_i hlen
      simp only [Except.ok.injEq] at h
      subst h
      exact ⟨by omega, rfl⟩

theorem nodup_map_join (dir : String) (entries : List Dirent)
    (hnd : (entries.map Dirent.name).Nodup) :
    (entries.map (fun file => dir ++ "/" ++ file.name)).Nodup := by
  have hinj : Function.Injective (fun name : String => dir ++ "/" ++ name) := by
    intro x y hxy
    have hd := congrArg String.data hxy
    simp only [String.data_append] at hd
    exact String.ext (List.append_cancel_left hd)
  have : entries.map (fun file => dir ++ "/" ++ file.name)
      = (entries.map Dirent.name).map (fun name : String => dir ++ "/" ++ name) := by
    rw [List.map_map]; rfl
  rw [this]
  exact List.Nodup.map hinj hnd

/-- Counterexample to C9 as stated: in search-path mode the constructor does
not deduplicate, so on a platform whose listing of `d` names `a.json` twice it
succeeds with a list that repeats `d/a.json`. -/
theorem getFileList_invariant_counterexample :
    (Action.constructor repeated "" "d" "").map Action.getFileList
        = .ok ["d/a.json", "d/a.json"]
      ∧ ¬ (["d/a.json", "d/a.json"] : List String).Nodup :=
  ⟨rfl, by decide⟩

/-- C9 (resolved-list invariant), amended: whenever the constructor succeeds,
in either mode, `getFileList()` has at least two elements; it has no duplicates
in explicit-file mode, and in search-path mode when the listing of the search
path names each entry once. In every other case the constructor returns an
error and there is no instance to ask. -/
theorem getFileList_invariant (rt : Runtime)
    (files searchPath searchPattern : String) (action : Action)
    (h : Action.constructor rt files searchPath searchPattern = .ok action) :
    2 ≤ action.getFileList.length
      ∧ (files ≠ "" → action.getFileList.Nodup)
      ∧ (files = "" →
          (∀ entries, rt.readdirSync searchPath = .ok entries →
            (entries.map Dirent.name).Nodup) →
          action.getFileList.Nodup) := by
  have hlist : validateInputs rt files searchPath
      (if !lodashIsEmpty searchPattern then searchPattern else defaultRegExp)
        = .ok action.getFileList := by
    rw [← constructor_getFileList, h]; rfl
  by_cases hfiles : files = ""
  · subst hfiles
    rw [validateInputs_search] at hlist
    obtain ⟨hlen, regexp, entries, hls, heq⟩ :=
      getFilesFromPath_ok rt searchPath _ _ (validateSearchPath_ok rt searchPath _ _ hlist)
    refine ⟨hlen, fun hne => absurd rfl hne, ?_⟩
    intro _ hlisting
    rw [heq]
    apply nodup_map_join
    have hsub : List.Sublist
        ((entries.filter
          (fun file => if file.isDirectory then false else regexp file.name)).map Dirent.name)
        (entries.map Dirent.name) := (List.filter_sublist entries).map Dirent.name
    exact hsub.nodup (hlisting entries hls)
  · rw [validateInputs_explicit rt files searchPath _ hfiles] at hlist
    obtain ⟨hlen, heq⟩ := validateFiles_ok rt files _ hlist
    refine ⟨hlen, ?_, fun hempty => absurd hempty hfiles⟩
    intro _
    rw [heq]
    exact keepFirst_nodup _

theorem demo_listing (dir : String) (entries : List Dirent)
    (h : demo.readdirSync dir = .ok entries) : (entries.map Dirent.name).Nodup := by
  simp only [demo] at h
  split at h
  · simp only [Except.ok.injEq] at h
    subst h
    decide
  · simp at h

/-- Witness of C9 (amended) in both modes: the directory `locales`, whose
listing names each entry once, and two explicit files. -/
theorem getFileList_invariant_witness :
    (2 ≤ localesAction.getFileList.length ∧ localesAction.getFileList.Nodup)
      ∧ (2 ≤ sameAction.getFileList.length ∧ sameAction.getFileList.Nodup) :=
  ⟨⟨(getFileList_invariant demo "" "locales" "" localesAction rfl).1,
      (getFileList_invariant demo "" "locales" "" localesAction rfl).2.2 rfl
        (demo_listing "locales")⟩,
    ⟨(getFileList_invariant demo "same1.json\nsame2.json" "" "" sameAction rfl).1,
      (getFileList_invariant demo "same1.json\nsame2.json" "" "" sameAction rfl).2.1
        (by decide)⟩⟩

/-- Counterexample to C10 as stated: the text `" "` is empty after trimming,
yet the constructor takes explicit-file mode and fails with `NotEnoughFiles`,
while search-path mode on `locales` resolves three files. -/
theorem mode_selection_counterexample :
    trim " " = ""
      ∧ (Action.constructor demo " " "locales" "").map Action.getFileList
        = .error (.NotEnoughFiles "You need at least 2 files to be compared.")
      ∧ validateSearchPath demo "locales" defaultRegExp
        = .ok ["locales/en.json", "locales/fr.json", "locales/de.json"] :=
  ⟨rfl, rfl, rfl⟩

/-- C10 (mode selection), amended: the constructor uses explicit-file mode if
and only if `files` is a non-empty string, no trimming applied; for the empty
string its outcome is that of search-path mode for the search path and the
effective pattern; in explicit-file mode the outcome is that of
`#validateFiles()` and does not depend on the search path or the pattern. -/
theorem mode_selection (rt : Runtime) (files searchPath searchPattern : String) :
    (files = "" →
        (Action.constructor rt files searchPath searchPattern).map Action.getFileList
          = validateSearchPath rt searchPath
              (if !lodashIsEmpty searchPattern then searchPattern else defaultRegExp))
      ∧ (files ≠ "" →
          (Action.constructor rt files searchPath searchPattern).map Action.getFileList
              = validateFiles rt files
            ∧ ∀ otherPath otherPattern,
                (Action.constructor rt files otherPath otherPattern).map Action.getFileList
                  = (Action.constructor rt files searchPath searchPattern).map
                      Action.getFileList) := by
  constructor
  · intro hfiles
    subst hfiles
    rw [constructor_getFileList, validateInputs_search]
  · intro hfiles
    constructor
    · rw [constructor_getFileList, validateInputs_explicit rt files searchPath _ hfiles]
    · intro otherPath otherPattern
      rw [constructor_getFileList, constructor_getFileList,
        validateInputs_explicit rt files searchPath _ hfiles,
        validateInputs_explicit rt files otherPath _ hfiles]

/-- Witness of C10 (amended): the empty text resolves the directory, a
non-empty text resolves the listed files whatever the search path is. -/
theorem mode_selection_witness :
    (Action.constructor demo "" "locales" "").map Action.getFileList
        = validateSearchPath demo "locales"
            (if !lodashIsEmpty "" then "" else defaultRegExp)
      ∧ ((Action.constructor demo "same1.json\nsame2.json" "locales" "").map
            Action.getFileList
          = validateFiles demo "same1.json\nsame2.json"
        ∧ ∀ otherPath otherPattern,
            (Action.constructor demo "same1.json\nsame2.json" otherPath otherPattern).map
                Action.getFileList
              = (Action.constructor demo "same1.json\nsame2.json" "locales" "").map
                  Action.getFileList) :=
  ⟨(mode_selection demo "" "locales" "").1 rfl,
    (mode_selection demo "same1.json\nsame2.json" "locales" "").2 (by decide)⟩

/-! ## The input resolver: search-path mode -/

theorem lodashIsEmpty_false (value : String) (h : value ≠ "") : lodashIsEmpty value = false := by
  cases hl : lodashIsEmpty value with
  | false => rfl
  | true => exact absurd ((lodashIsEmpty_iff value).mp hl) h

/-- C11 (search-path resolution): for every search path that exists and is a
directory, every pattern that `RegExp` accepts and every directory listing with
at least two surviving entries, `getFileList()` is, in listing order, the list
of `<normalized searchPath>/<name>` for exactly the entries that are not
directories and whose name passes `regexp.test`. -/
theorem getFileList_search (rt : Runtime) (searchPath searchPattern : String)
    (regexp : String → Bool) (entries : List Dirent)
    (hpath : searchPath ≠ "") (hexists : rt.existsSync searchPath = true)
    (hdir : rt.lstatIsDirectory searchPath = true)
    (hre : rt.newRegExp (if !lodashIsEmpty searchPattern then searchPattern
      else defaultRegExp) = .ok regexp)
    (hls : rt.readdirSync searchPath = .ok entries)
    (htwo : 2 ≤ (searchCandidates regexp entries).length) :
    (Action.constructor rt "" searchPath searchPattern).map Action.getFileList
      = .ok ((searchCandidates regexp entries).map
          (fun entry => normalizePath rt searchPath ++ "/" ++ entry.name)) := by
  rw [constructor_getFileList, validateInputs_search,
    validateSearchPath_of_directory rt searchPath _ regexp entries hpath hexists hdir hre hls,
    List.length_map, if_neg (by omega)]

/-- Witness of C11 on scenario 3: `file1.json`, `file2.ejson`, the directory
`folder` and `file3.txt` under the pattern `json$`. -/
theorem getFileList_search_witness :
    searchCandidates (fun name => endsWith name "json")
        [⟨"file1.json", false⟩, ⟨"file2.ejson", false⟩, ⟨"folder", true⟩,
          ⟨"file3.txt", false⟩]
        = [⟨"file1.json", false⟩, ⟨"file2.ejson", false⟩]
      ∧ normalizePath fixture "/some/search/folder/" = "/some/search/folder"
      ∧ (Action.constructor fixture "" "/some/search/folder/" "json$").map Action.getFileList
        = .ok ((searchCandidates (fun name => endsWith name "json")
            [⟨"file1.json", false⟩, ⟨"file2.ejson", false⟩, ⟨"folder", true⟩,
              ⟨"file3.txt", false⟩]).map
          (fun entry => normalizePath fixture "/some/search/folder/" ++ "/" ++ entry.name)) :=
  ⟨by decide, rfl,
    getFileList_search fixture "/some/search/folder/" "json$" (fun name => endsWith name "json")
      [⟨"file1.json", false⟩, ⟨"file2.ejson", false⟩, ⟨"folder", true⟩, ⟨"file3.txt", false⟩]
      (by decide) rfl rfl rfl rfl (by decide)⟩

/-- C12 (default pattern): with an empty `searchPattern` the constructor does
exactly what it does with the pattern `\.json$`; in search-path mode, on a
platform where that pattern tests true exactly on the names ending in `.json`,
the entries that survive are the non-directories whose name ends in `.json`. -/
theorem constructor_default_pattern (rt : Runtime) (files searchPath : String) :
    defaultRegExp = "\\.json$"
      ∧ Action.constructor rt files searchPath ""
          = Action.constructor rt files searchPath "\\.json$"
      ∧ (∀ (regexp : String → Bool) (entries : List Dirent),
          files = "" → searchPath ≠ "" → rt.existsSync searchPath = true →
          rt.lstatIsDirectory searchPath = true →
          rt.newRegExp "\\.json$" = .ok regexp →
          (∀ name, regexp name = endsWith name ".json") →
          rt.readdirSync searchPath = .ok entries →
          (Action.constructor rt files searchPath "").map Action.getFileList
            = if (entries.filter
                  (fun entry => !entry.isDirectory && endsWith entry.name ".json")).length < 2
              then .error (.NotEnoughFiles "You need at least 2 files to be compared.")
              else .ok ((entries.filter
                  (fun entry => !entry.isDirectory && endsWith entry.name ".json")).map
                (fun entry => normalizePath rt searchPath ++ "/" ++ entry.name))) := by
  refine ⟨rfl, rfl, ?_⟩
  intro regexp entries hfiles hpath hexists hdir hre hsem hls
  subst hfiles
  have hcand : searchCandidates regexp entries
      = entries.filter (fun entry => !entry.isDirectory && endsWith entry.name ".json") := by
    unfold searchCandidates
    apply List.filter_congr
    intro entry _
    rw [hsem]
  have hpat : (if !lodashIsEmpty "" then "" else defaultRegExp) = "\\.json$" := rfl
  rw [constructor_getFileList, validateInputs_search, hpat,
    validateSearchPath_of_directory rt searchPath _ regexp entries hpath hexists hdir hre hls,
    List.length_map, hcand]

/-- Witness of C12 on the directory of the test-suite: under the default only
`file1.json` survives and the constructor fails, under `json$` two files are
resolved. -/
theorem constructor_default_pattern_witness :
    (Action.constructor fixture "" "/some/search/folder/" "").map Action.getFileList
        = .error (.NotEnoughFiles "You need at least 2 files to be compared.")
      ∧ (Action.constructor fixture "" "/some/search/folder/" "json$").map Action.getFileList
        = .ok ["/some/search/folder/file1.json", "/some/search/folder/file2.ejson"] :=
  ⟨((constructor_default_pattern fixture "" "/some/search/folder/").2.2
      (fun name => endsWith name ".json")
      [⟨"file1.json", false⟩, ⟨"file2.ejson", false⟩, ⟨"folder", true⟩, ⟨"file3.txt", false⟩]
      rfl (by decide) rfl rfl rfl (fun _ => rfl) rfl).trans rfl,
    rfl⟩

/-- C13 (InvalidSearchPath): in search-path mode with a non-empty search path
the constructor fails with `InvalidSearchPath`, with the message quoting the
path as given, if and only if the path does not exist or is not a directory;
this holds whatever the directory listing and the pattern are. -/
theorem constructor_invalidSearchPath (rt : Runtime) (searchPath searchPattern : String)
    (hpath : searchPath ≠ "") :
    ((∃ message, Action.constructor rt "" searchPath searchPattern
          = .error (.InvalidSearchPath message))
        ↔ (rt.existsSync searchPath = false ∨ rt.lstatIsDirectory searchPath = false))
      ∧ ((rt.existsSync searchPath = false ∨ rt.lstatIsDirectory searchPath = false) →
          Action.constructor rt "" searchPath searchPattern
            = .error (.InvalidSearchPath
                ("Invalid path '" ++ searchPath
                  ++ "', path should exists and be a directory."))) := by
  have hempty := lodashIsEmpty_false searchPath hpath
  have hbad : (rt.existsSync searchPath = false ∨ rt.lstatIsDirectory searchPath = false) →
      Action.constructor rt "" searchPath searchPattern
        = .error (.InvalidSearchPath
            ("Invalid path '" ++ searchPath
              ++ "', path should exists and be a directory.")) := by
    intro h
    rw [constructor_error_iff, validateInputs_search]
    unfold validateSearchPath
    have hcond : (!rt.existsSync searchPath || !rt.lstatIsDirectory searchPath) = true := by
      rcases h with h | h <;> simp [h]
    simp only [hempty, Bool.false_eq_true, if_false, hcond, if_true]
  refine ⟨⟨?_, fun h => ⟨_, hbad h⟩⟩, hbad⟩
  rintro ⟨message, h⟩
  rw [constructor_error_iff, validateInputs_search] at h
  by_contra hgood
  have hex : rt.existsSync searchPath = true := by
    cases hval : rt.existsSync searchPath with
    | true => rfl
    | false => exact absurd (Or.inl hval) hgood
  have hd : rt.lstatIsDirectory searchPath = true := by
    cases hval : rt.lstatIsDirectory searchPath with
    | true => rfl
    | false => exact absurd (Or.inr hval) hgood
  unfold validateSearchPath at h
  simp only [hempty, hex, hd, Bool.not_true, Bool.or_self, Bool.false_eq_true, if_false] at h
  unfold getFilesFromPath at h
  cases hre : rt.newRegExp
      (if !lodashIsEmpty searchPattern then searchPattern else defaultRegExp) with
  | error m => rw [hre] at h; simp [liftRuntime] at h
  | ok regexp =>
    cases hls : rt.readdirSync searchPath with
    | error m => rw [hre, hls] at h; simp [liftRuntime] at h
    | ok entries =>
      rw [hre, hls] at h
      simp only [liftRuntime] at h
      split at h <;> simp at h

/-- Witness of C13: `missing` does not exist in `demo`, `same1.json` exists but
is a file. -/
theorem constructor_invalidSearchPath_witness :
    Action.constructor demo "" "missing" ""
        = .error (.InvalidSearchPath
            ("Invalid path '" ++ "missing" ++ "', path should exists and be a directory."))
      ∧ Action.constructor demo "" "same1.json" ""
        = .error (.InvalidSearchPath
            ("Invalid path '" ++ "same1.json" ++ "', path should exists and be a directory.")) :=
  ⟨(constructor_invalidSearchPath demo "missing" "" (by decide)).2 (Or.inl rfl),
    (constructor_invalidSearchPath demo "same1.json" "" (by decide)).2 (Or.inr rfl)⟩

/-- Counterexample to C14 as stated: the search path `" "` is whitespace only,
yet the constructor goes on to the filesystem check and fails with
`InvalidSearchPath`, not with `EmptySearchPath`. -/
theorem constructor_emptySearchPath_counterexample :
    trim " " = ""
      ∧ Action.constructor demo "" " " ""
        = .error (.InvalidSearchPath
            "Invalid path ' ', path should exists and be a directory.")
      ∧ Action.constructor demo "" " " ""
        ≠ .error (.EmptySearchPath "Search path can't be empty.") :=
  ⟨rfl, rfl, by
    intro h
    have h2 : Action.constructor demo "" " " ""
        = .error (.InvalidSearchPath
            "Invalid path ' ', path should exists and be a directory.") := rfl
    rw [h2] at h
    simp at h⟩

/-- C14 (EmptySearchPath), amended: whenever search-path mode is selected and
the search path is the empty string, the constructor fails with
`EmptySearchPath` and the message `Search path can't be empty.`, on every
platform, that is, whatever the filesystem would answer. -/
theorem constructor_emptySearchPath (rt : Runtime) (searchPattern : String) :
    Action.constructor rt "" "" searchPattern
      = .error (.EmptySearchPath "Search path can't be empty.") := by
  rw [constructor_error_iff, validateInputs_search]
  rfl

/-! ## Loading -/

theorem readFilesLoop_error_of_mem (rt : Runtime) (fileList : List String) (file : String)
    (e : ActionError) (hmem : file ∈ fileList) (hfile : fileKeys rt file = .error e) :
    ∀ (contents : JsObject (List String)), ∃ e', readFilesLoop rt fileList contents = .error e' := by
  induction fileList with
  | nil => simp at hmem
  | cons first rest ih =>
    intro contents
    simp only [readFilesLoop]
    cases hk : fileKeys rt first with
    | error e1 => exact ⟨e1, rfl⟩
    | ok keys =>
      simp only
      rcases List.mem_cons.mp hmem with h | h
      · rw [← h, hfile] at hk
        simp at hk
      · exact ih h _

theorem fileKeys_error_of_bad_document (rt : Runtime) (file content : String)
    (hread : rt.readFileSync file = .ok content)
    (hbad : (∃ m, rt.jsonParse content = .error m) ∨ rt.jsonParse content = .ok .null) :
    ∃ e, fileKeys rt file = .error e := by
  unfold fileKeys
  rw [hread]
  simp only [liftRuntime]
  rcases hbad with ⟨m, hm⟩ | hnull
  · rw [hm]; exact ⟨_, rfl⟩
  · rw [hnull]; exact ⟨_, rfl⟩

/-- Counterexample to C15 as stated: `list.json` holds the array `["a","b"]`,
which is not an object, yet `run` succeeds, takes the indices `0` and `1` as the
keys of that file and reports `1` as missing from `obj.json`. -/
theorem run_load_counterexample :
    (Action.constructor mixed "list.json\nobj.json" "" "").map Action.getFileList
        = .ok mixedAction.fileList
      ∧ mixed.readFileSync "list.json" = .ok "[\"a\",\"b\"]"
      ∧ mixed.jsonParse "[\"a\",\"b\"]" = .ok (.array [.string "a", .string "b"])
      ∧ readFilesContent mixed mixedAction.fileList
        = .ok [("list.json", ["0", "1"]), ("obj.json", ["0"])]
      ∧ mixedAction.run mixed = .ok [("obj.json", ["1"])] :=
  ⟨rfl, rfl, rfl, rfl, rfl⟩

/-- C15 (load failure aborts the comparison), amended: for every resolved file
list, if the content of any one file is malformed JSON text or is the document
`null`, `run` fails with an error and returns no report at all, whatever the
other files hold. -/
theorem run_load_failure (rt : Runtime) (action : Action) (file content : String)
    (hmem : file ∈ action.fileList)
    (hread : rt.readFileSync file = .ok content)
    (hbad : (∃ m, rt.jsonParse content = .error m) ∨ rt.jsonParse content = .ok .null) :
    ∃ e, action.run rt = .error e := by
  obtain ⟨e, he⟩ := fileKeys_error_of_bad_document rt file content hread hbad
  obtain ⟨e', he'⟩ := readFilesLoop_error_of_mem rt action.fileList file e hmem he []
  refine ⟨e', ?_⟩
  unfold Action.run readFilesContent
  rw [he']

/-- Witness of C15 (amended): a truncated document after a valid one, and the
document `null` before a valid one. -/
theorem run_load_failure_witness :
    (∃ e, Action.run mixed
        { files := "obj.json\nbad.json", searchPath := "", searchPattern := defaultRegExp,
          fileList := ["obj.json", "bad.json"] } = .error e)
      ∧ (∃ e, Action.run mixed
        { files := "null.json\nobj.json", searchPath := "", searchPattern := defaultRegExp,
          fileList := ["null.json", "obj.json"] } = .error e) :=
  ⟨run_load_failure mixed
      { files := "obj.json\nbad.json", searchPath := "", searchPattern := defaultRegExp,
        fileList := ["obj.json", "bad.json"] }
      "bad.json" "\x7b" (by decide) rfl (Or.inl ⟨"Unexpected end of JSON input", rfl⟩),
    run_load_failure mixed
      { files := "null.json\nobj.json", searchPath := "", searchPattern := defaultRegExp,
        fileList := ["null.json", "obj.json"] }
      "null.json" "null" (by decide) rfl (Or.inr rfl)⟩

/-! ## The entry point -/

theorem main_of_constructor_error (rt : Runtime) (getInput : String → String) (e : ActionError)
    (h : Action.constructor rt (getInput "files") (getInput "search_path")
      (getInput "search_pattern") = .error e) :
    main rt getInput = { signals := [], uncaught := some e } := by
  unfold main
  rw [h]

theorem main_of_run_error (rt : Runtime) (getInput : String → String) (action : Action)
    (e : ActionError)
    (hnew : Action.constructor rt (getInput "files") (getInput "search_path")
      (getInput "search_pattern") = .ok action)
    (hrun : action.run rt = .error e) :
    main rt getInput = { signals := [.setFailed e.message], uncaught := none } := by
  unfold main
  rw [hnew]
  simp only
  rw [hrun]

theorem reportLines_eq (missing : JsObject (List String))
    (entries : List (String × List String))
    (h : ∀ entry ∈ entries, missing.get? entry.1 = some entry.2) :
    reportLines missing (entries.map Prod.fst)
      = (entries.map (fun entry =>
          Signal.info entry.1 :: entry.2.map (fun key => Signal.info ("- " ++ key)))).flatten := by
  induction entries with
  | nil => rfl
  | cons entry rest ih =>
    have hrest := ih (fun e he => h e (List.mem_cons_of_mem _ he))
    have hfirst := h entry (List.mem_cons_self _ _)
    simp only [List.map_cons, reportLines, List.flatten_cons, hrest, missingOf, hfirst,
      Option.getD_some]

theorem run_keys_nodup (rt : Runtime) (action : Action) (report : JsObject (List String))
    (hrun : action.run rt = .ok report) : (JsObject.keys report).Nodup := by
  unfold Action.run at hrun
  cases hload : readFilesContent rt action.fileList with
  | error e => rw [hload] at hrun; simp at hrun
  | ok contents =>
    rw [hload] at hrun
    simp only [Except.ok.injEq] at hrun
    rw [← hrun]
    exact compareContents_keys_nodup contents

/-- C16 at its failing input: with no input set the constructor throws
`EmptySearchPath` before the `try` block is entered, so the error leaves `main`
uncaught and `core.setFailed` is never called. -/
theorem main_constructor_error_escapes :
    main demo (inputsOf "" "" "")
      = { signals := [],
          uncaught := some (.EmptySearchPath "Search path can't be empty.") } :=
  main_of_constructor_error demo (inputsOf "" "" "") _ rfl

/-- C17 at its failing input: the root directory is normalised to `/`, which
ends with the separator, so the resolved paths carry two separators. -/
theorem normalizePath_root :
    normalizePath rootFs "/" = "/"
      ∧ (Action.constructor rootFs "" "/" "").map Action.getFileList
        = .ok ["//file1.json", "//file2.json"] :=
  ⟨rfl, rfl⟩

/-- C18 (top-level success reporting): for every report returned by `run`, if
the report is empty `main` emits exactly one informational message and no
failure signal; otherwise it emits one failure signal and then, for each entry
of the report in report order, the file identity followed by one line `- <key>`
per missing key, in the order of the entry's list. -/
theorem main_reports (rt : Runtime) (getInput : String → String) (action : Action)
    (report : JsObject (List String))
    (hnew : Action.constructor rt (getInput "files") (getInput "search_path")
      (getInput "search_pattern") = .ok action)
    (hrun : action.run rt = .ok report) :
    main rt getInput
      = if report = [] then
          { signals := [.info "No differences found in files!!"], uncaught := none }
        else
          { signals := .setFailed "Differences found on the next files:"
              :: (report.map (fun entry =>
                  Signal.info entry.1
                    :: entry.2.map (fun key => Signal.info ("- " ++ key)))).flatten,
            uncaught := none } := by
  have hnd := run_keys_nodup rt action report hrun
  unfold main
  rw [hnew]
  simp only
  rw [hrun]
  simp only
  by_cases hempty : report = []
  · subst hempty
    rfl
  · have hlen : ¬ (JsObject.keys report).length = 0 := by
      intro h
      apply hempty
      have : report.length = 0 := by simpa [JsObject.keys] using h
      exact List.length_eq_zero.mp this
    rw [if_neg hlen, if_neg hempty]
    have hlines := reportLines_eq report report
      (fun entry he => JsObject.get?_of_mem report hnd entry.1 entry.2 he)
    unfold JsObject.keys
    rw [hlines]

/-- Witness of C18: two identical files give the single informational message,
the locale files give the failure signal followed by their two entries. -/
theorem main_reports_witness :
    main demo (inputsOf "same1.json\nsame2.json" "" "")
        = { signals := [.info "No differences found in files!!"], uncaught := none }
      ∧ main demo (inputsOf "" "locales" "")
        = { signals := [.setFailed "Differences found on the next files:",
              .info "locales/fr.json", .info "- bye", .info "locales/de.json", .info "- X"],
            uncaught := none } :=
  ⟨(main_reports demo (inputsOf "same1.json\nsame2.json" "" "") sameAction [] rfl rfl).trans rfl,
    (main_reports demo (inputsOf "" "locales" "") localesAction localesReport rfl rfl).trans
      rfl⟩

/-! ## Order of the report -/

theorem keepFirstFrom_sublist (xs : List String) :
    ∀ (s : List String), List.Sublist (keepFirstFrom s xs) xs := by
  induction xs with
  | nil => intro s; exact List.Sublist.slnil
  | cons x xs ih =>
    intro s
    simp only [keepFirstFrom]
    by_cases hx : x ∈ s
    · rw [if_pos hx]; exact (ih s).cons x
    · rw [if_neg hx]; exact (ih (x :: s)).cons₂ x

theorem keys_assign_of_noIndex {α : Type} (o : JsObject α) (key : String) (value : α)
    (hidx : arrayIndex? key = none) :
    JsObject.keys (o.assign key value)
      = JsObject.keys o ++ keepFirstFrom (JsObject.keys o)
          ([key].filter (fun f => f ≠ "__proto__")) := by
  by_cases hproto : key = "__proto__"
  · subst hproto
    rw [JsObject.assign_proto]
    simp [keepFirstFrom]
  · have hf : [key].filter (fun f => f ≠ "__proto__") = [key] := by simp [hproto]
    rw [hf]
    simp only [keepFirstFrom]
    by_cases hmem : key ∈ JsObject.keys o
    · rw [if_pos hmem]
      unfold JsObject.assign JsObject.defineProperty
      rw [if_neg hproto, if_pos ((JsObject.hasOwn_iff o key).mpr hmem), JsObject.keys_replace]
      simp
    · rw [if_neg hmem, JsObject.assign_of_plain o key value hproto hmem hidx]
      simp [JsObject.keys]

theorem readFilesLoop_keys_of_noIndex (rt : Runtime) (fileList : List String) :
    ∀ (contents result : JsObject (List String)),
      readFilesLoop rt fileList contents = .ok result →
      (∀ f ∈ fileList, arrayIndex? f = none) →
      JsObject.keys result
        = JsObject.keys contents ++ keepFirstFrom (JsObject.keys contents)
            (fileList.filter (fun f => f ≠ "__proto__")) := by
  induction fileList with
  | nil =>
    intro contents result h _
    simp only [readFilesLoop, Except.ok.injEq] at h
    simp [h, keepFirstFrom]
  | cons file rest ih =>
    intro contents result h hidx
    simp only [readFilesLoop] at h
    cases hk : fileKeys rt file with
    | error e => rw [hk] at h; simp at h
    | ok keys =>
      rw [hk] at h
      simp only at h
      have hrest := ih _ _ h (fun f hf => hidx f (List.mem_cons_of_mem _ hf))
      have hstep := keys_assign_of_noIndex contents file keys
        (hidx file (List.mem_cons_self _ _))
      have hsplit : (file :: rest).filter (fun f => f ≠ "__proto__")
          = [file].filter (fun f => f ≠ "__proto__")
            ++ rest.filter (fun f => f ≠ "__proto__") := by
        rw [← List.filter_append]; rfl
      rw [hrest, hstep, hsplit, keepFirstFrom_append, List.append_assoc]

theorem compareLoop_keys_of_noIndex (contents : JsObject (List String)) (keys : List String)
    (files : List String) :
    ∀ (missingKeys : JsObject (List String)), (∀ f ∈ files, arrayIndex? f = none) →
      JsObject.keys (compareLoop contents keys files missingKeys)
        = JsObject.keys missingKeys ++ keepFirstFrom (JsObject.keys missingKeys)
            ((files.filter (fun f => (missingLoop contents f keys []).length > 0)).filter
              (fun f => f ≠ "__proto__")) := by
  induction files with
  | nil => intro missingKeys _; simp [compareLoop, keepFirstFrom]
  | cons file rest ih =>
    intro missingKeys hidx
    have hrest := fun acc => ih acc (fun f hf => hidx f (List.mem_cons_of_mem _ hf))
    simp only [compareLoop]
    by_cases hlen : (missingLoop contents file keys []).length > 0
    · have hd : decide ((missingLoop contents file keys []).length > 0) = true := by
        simpa using hlen
      have hfilt : (file :: rest).filter
            (fun f => (missingLoop contents f keys []).length > 0)
          = file :: rest.filter (fun f => (missingLoop contents f keys []).length > 0) := by
        rw [List.filter_cons, if_pos hd]
      rw [if_pos hlen, hrest, keys_assign_of_noIndex missingKeys file _
        (hidx file (List.mem_cons_self _ _)), hfilt]
      have hsplit : ∀ l : List String, (file :: l).filter (fun f => f ≠ "__proto__")
          = [file].filter (fun f => f ≠ "__proto__")
            ++ l.filter (fun f => f ≠ "__proto__") := by
        intro l; rw [← List.filter_append]; rfl
      rw [hsplit (rest.filter (fun f => (missingLoop contents f keys []).length > 0)),
        keepFirstFrom_append, List.append_assoc]
    · have hd : decide ((missingLoop contents file keys []).length > 0) = false := by
        simpa using hlen
      have hfilt : (file :: rest).filter
            (fun f => (missingLoop contents f keys []).length > 0)
          = rest.filter (fun f => (missingLoop contents f keys []).length > 0) := by
        rw [List.filter_cons, hd]
        rfl
      rw [if_neg hlen, hrest, hfilt]

/-- Counterexample to C19 as stated: for the explicit files `b.json`, `2`, `1`
the report enumerates `1`, `2`, `b.json`, which is not the relative order of
the resolved list. -/
theorem report_order_counterexample :
    (Action.constructor demo "b.json\n2\n1" "" "").map Action.getFileList
        = .ok numberedAction.getFileList
      ∧ numberedAction.getFileList = ["b.json", "2", "1"]
      ∧ numberedAction.run demo = .ok numberedReport
      ∧ JsObject.keys numberedReport = ["1", "2", "b.json"]
      ∧ ¬ List.Sublist (JsObject.keys numberedReport) numberedAction.getFileList :=
  ⟨rfl, rfl, rfl, rfl, by decide⟩

/-- C19 (report files come from the resolved list), amended: every file
identity that is a key of the report returned by `run` is an element of
`getFileList()`; and when no path of `getFileList()` is an array-index string,
the keys of the report are enumerated in the relative order in which those
files occur in `getFileList()`. -/
theorem report_files_in_list_order (rt : Runtime) (action : Action)
    (report : JsObject (List String))
    (hrun : action.run rt = .ok report) :
    (∀ f ∈ JsObject.keys report, f ∈ action.getFileList)
      ∧ ((∀ f ∈ action.getFileList, arrayIndex? f = none) →
          List.Sublist (JsObject.keys report) action.getFileList) := by
  unfold Action.run at hrun
  cases hload : readFilesContent rt action.fileList with
  | error e => rw [hload] at hrun; simp at hrun
  | ok contents =>
    rw [hload] at hrun
    simp only [Except.ok.injEq] at hrun
    subst hrun
    have hcm := readFilesContent_contentMap rt action.fileList contents hload
    have hsubset : ∀ f ∈ JsObject.keys contents, f ∈ action.fileList := by
      intro f hf
      rcases (readFilesLoop_mem_keys rt action.fileList [] contents hload f).mp hf with h | h
      · exact h.1
      · simp [JsObject.keys] at h
    constructor
    · intro f hf
      obtain ⟨v, hv⟩ := (JsObject.get?_isSome_iff _ f).mpr hf
      rw [compareContents_get? contents hcm f] at hv
      by_cases hc : f ∈ JsObject.keys contents
          ∧ specMissing (JsObject.keys contents) (keysOfFile contents) f ≠ []
      · exact hsubset f hc.1
      · rw [if_neg hc] at hv
        exact absurd hv (by simp)
    · intro hidx
      have hkeys := readFilesLoop_keys_of_noIndex rt action.fileList [] contents hload hidx
      have hreport := compareLoop_keys_of_noIndex contents (JsObject.keys contents)
        (JsObject.keys contents) [] (fun f hf => hidx f (hsubset f hf))
      have h1 : List.Sublist (JsObject.keys (compareContents contents))
          (JsObject.keys contents) := by
        unfold compareContents
        simp only
        rw [hreport]
        simp only [JsObject.keys, List.map_nil, List.nil_append]
        exact ((keepFirstFrom_sublist _ []).trans (List.filter_sublist _)).trans
          (List.filter_sublist _)
      have h2 : List.Sublist (JsObject.keys contents) action.fileList := by
        rw [hkeys]
        simp only [JsObject.keys, List.map_nil, List.nil_append]
        exact (keepFirstFrom_sublist _ []).trans (List.filter_sublist _)
      exact h1.trans h2

/-- Witness of C19 (amended) on the locale files, none of which is named by an
array index. -/
theorem report_files_in_list_order_witness :
    localesAction.run demo = .ok localesReport
      ∧ (∀ f ∈ localesAction.getFileList, arrayIndex? f = none)
      ∧ JsObject.keys localesReport = ["locales/fr.json", "locales/de.json"]
      ∧ localesAction.getFileList = ["locales/en.json", "locales/fr.json", "locales/de.json"]
      ∧ (∀ f ∈ JsObject.keys localesReport, f ∈ localesAction.getFileList)
      ∧ List.Sublist (JsObject.keys localesReport) localesAction.getFileList :=
  ⟨rfl, by decide, rfl, rfl,
    (report_files_in_list_order demo localesAction localesReport rfl).1,
    (report_files_in_list_order demo localesAction localesReport rfl).2 (by decide)⟩

end JsonDiff
